import Mathlib

/-!
Verification of the nonogram constraint-satisfaction core of the OnlyNyans
repository: clue calculation (`Clues.calculateLine` and friends), the
backtracking solver (`Solver.solve` / `Solver.backtrack` with its partial
pruning checks), the random-puzzle generator loop (`Generator.generate`)
and the puzzle-record validation performed by `loadPuzzle`.

Cells are modelled as in the source: the integer `-1` is Unknown, `0` is
Empty, `1` is Filled.  Grids are lists of rows; out-of-range reads default
the same way everywhere and are never exercised on the square grids the
solver builds.  The JavaScript recursion mutates the working grid in
place; the embedding passes the grid explicitly and returns the updated
grid next to the solution list and the continue flag.  The recursion of
`backtrack` is driven by an explicit `fuel` argument (structural, so that
concrete runs compute); `solve` supplies `size * size` fuel, which is
exactly the recursion depth of the source, so the fuel-exhausted branch is
never reached from `solve`.
-/

set_option maxHeartbeats 1000000

namespace Nonogram

abbrev Cell := Int

abbrev Line := List Int

abbrev Grid := List (List Int)

abbrev Clue := List Nat

/-- Embeds `Utils.create2DArray(rows, cols, defaultValue)`. -/
def create2DArray (rows cols : Nat) (defaultValue : Int) : Grid :=
  List.replicate rows (List.replicate cols defaultValue)

/-- Reads `grid[r][c]`; in-range on every grid the solver builds. -/
def getCell (grid : Grid) (r c : Nat) : Int :=
  (grid.getD r []).getD c (-1)

/-- Embeds the in-place assignment `grid[r][c] = v` of the source. -/
def setCell (grid : Grid) (r c : Nat) (v : Int) : Grid :=
  grid.set r ((grid.getD r []).set c v)

/-- Loop of `Clues.calculateLine`: `count` is the running count of
consecutive filled cells; a run is emitted when a non-filled cell (or the
end of the line) is reached with `count > 0`. -/
def calculateLineAux : List Int → Nat → List Nat
  | [], count => if count > 0 then [count] else []
  | c :: rest, count =>
    if c = 1 then calculateLineAux rest (count + 1)
    else if count > 0 then count :: calculateLineAux rest 0
    else calculateLineAux rest 0

/-- Embeds `Clues.calculateLine`: run lengths of filled cells, `[0]` if
none were found. -/
def calculateLine (line : List Int) : List Nat :=
  let clues := calculateLineAux line 0
  if clues.length > 0 then clues else [0]

/-- Embeds `Clues.calculateRows`. -/
def calculateRows (grid : Grid) : List Clue :=
  grid.map fun row => calculateLine row

/-- Column `col` of a grid, as read by the column loops of the source
(`for r in 0..size-1 push grid[r][col]`). -/
def getColumn (grid : Grid) (col : Nat) : List Int :=
  grid.map fun row => row.getD col (-1)

/-- Embeds `Clues.calculateColumns`. -/
def calculateColumns (grid : Grid) : List Clue :=
  (List.range grid.length).map fun col => calculateLine (getColumn grid col)

/-- Embeds `Solver.cluesMatch`: length check plus element-wise equality. -/
def cluesMatch (clues1 clues2 : List Nat) : Bool :=
  if clues1.length ≠ clues2.length then false
  else (clues1.zip clues2).all fun p => p.1 == p.2

/-- Segment-extraction loop of `Solver.canMatchClues`.  The accumulator is
the currently open segment (`some cur` when `inSegment` is true in the
source, in which case `cur` is the value stored at the tail of the
`segments` array).  A `1` opens or extends the open segment, a `0` closes
it, and `-1` leaves the state untouched, exactly as in the source. -/
def segmentsAux : List Int → Option Nat → List Nat
  | [], none => []
  | [], some cur => [cur]
  | c :: rest, acc =>
    if c = 1 then
      segmentsAux rest (some (acc.getD 0 + 1))
    else if c = 0 then
      match acc with
      | some cur => cur :: segmentsAux rest none
      | none => segmentsAux rest none
    else
      segmentsAux rest acc

/-- Embeds `Solver.canMatchClues`: the known filled segments must not be
more numerous than the clue entries, and none may exceed the clue entry of
the same index. -/
def canMatchClues (line : List Int) (clues : List Nat) : Bool :=
  let segments := segmentsAux line none
  if segments.length > clues.length then false
  else (segments.zip clues).all fun p => decide (p.1 ≤ p.2)

/-- Embeds `Solver.isValidPartial`: the row containing the just-assigned
cell and its column must each either (when fully assigned) match their
clue exactly, or (otherwise) pass the weaker `canMatchClues` test. -/
def isValidPartial (grid : Grid) (rowClues colClues : List Clue)
    (row col : Nat) : Bool :=
  let theRow := grid.getD row []
  let rowComplete := theRow.all fun cell => decide (cell ≠ -1)
  let rowOk :=
    if rowComplete then cluesMatch (calculateLine theRow) (rowClues.getD row [])
    else canMatchClues theRow (rowClues.getD row [])
  if rowOk then
    let column := getColumn grid col
    let colComplete := column.all fun cell => decide (cell ≠ -1)
    if colComplete then cluesMatch (calculateLine column) (colClues.getD col [])
    else canMatchClues column (colClues.getD col [])
  else false

/-- Embeds `Solver.isValidSolution`: every row clue and every column clue
of the fully assigned grid must match exactly. -/
def isValidSolution (grid : Grid) (rowClues colClues : List Clue) : Bool :=
  ((List.range grid.length).all fun row =>
    cluesMatch (calculateLine (grid.getD row [])) (rowClues.getD row [])) &&
  ((List.range grid.length).all fun col =>
    cluesMatch (calculateLine (getColumn grid col)) (colClues.getD col []))

/-- Embeds `Solver.backtrack`.  The result is the grid after the call (the
source mutates it in place), the accumulated solution list and the
returned continue flag.  `size` is `grid.length` in the source, constant
throughout the recursion; `fuel` bounds the recursion depth and `solve`
passes `size * size`, which the source recursion never exceeds, so the
fuel-exhausted branch is unreachable from `solve`. -/
def backtrack (size : Nat) (rowClues colClues : List Clue) (fuel : Nat)
    (grid : Grid) (pos : Nat) (solutions : List Grid) (maxSolutions : Nat) :
    Grid × List Grid × Bool :=
  if solutions.length ≥ maxSolutions then
    (grid, solutions, false)
  else if pos ≥ size * size then
    let solutions' :=
      if isValidSolution grid rowClues colClues then solutions ++ [grid]
      else solutions
    (grid, solutions', decide (solutions'.length < maxSolutions))
  else
    match fuel with
    | 0 => (grid, solutions, false)
    | fuel' + 1 =>
      let row := pos / size
      let col := pos % size
      let r1 :=
        if isValidPartial (setCell grid row col 1) rowClues colClues row col then
          backtrack size rowClues colClues fuel' (setCell grid row col 1)
            (pos + 1) solutions maxSolutions
        else (setCell grid row col 1, solutions, true)
      if r1.2.2 then
        let r2 :=
          if isValidPartial (setCell r1.1 row col 0) rowClues colClues row col then
            backtrack size rowClues colClues fuel' (setCell r1.1 row col 0)
              (pos + 1) r1.2.1 maxSolutions
          else (setCell r1.1 row col 0, r1.2.1, true)
        (setCell r2.1 row col (-1), r2.2.1, r2.2.2)
      else
        (setCell r1.1 row col (-1), r1.2.1, false)

/-- Result record of `Solver.solve`. -/
structure SolveResult where
  solutions : List Grid
  unique : Bool
  solvable : Bool
deriving Repr, DecidableEq

/-- Embeds `Solver.solve`: build an all-Unknown working grid of side
`rowClues.length`, run the backtracking search from position 0, and report
the solutions together with the `unique` and `solvable` flags. -/
def solve (rowClues colClues : List Clue) (maxSolutions : Nat) : SolveResult :=
  let size := rowClues.length
  let grid := create2DArray size size (-1)
  let result := backtrack size rowClues colClues (size * size) grid 0 [] maxSolutions
  { solutions := result.2.1
    unique := decide (result.2.1.length = 1)
    solvable := decide (result.2.1.length > 0) }

/-- Number of full 0/1 assignments extending the cells already fixed below
`pos` that satisfy `isValidSolution`.  This mirrors the shape of the
search tree of `backtrack` with the pruning and the solution bound removed
and is the executable form of the count of satisfying grids. -/
def countExt (size : Nat) (rowClues colClues : List Clue) (fuel : Nat)
    (grid : Grid) (pos : Nat) : Nat :=
  if pos ≥ size * size then
    if isValidSolution grid rowClues colClues then 1 else 0
  else
    match fuel with
    | 0 => 0
    | fuel' + 1 =>
      countExt size rowClues colClues fuel'
        (setCell grid (pos / size) (pos % size) 1) (pos + 1) +
      countExt size rowClues colClues fuel'
        (setCell grid (pos / size) (pos % size) 0) (pos + 1)

/-- The `N × N` 0/1 grid determined by a Boolean assignment. -/
def gridOfFun (n : Nat) (f : Fin n → Fin n → Bool) : Grid :=
  List.ofFn fun r : Fin n => List.ofFn fun c : Fin n =>
    if f r c then (1 : Int) else 0

/-- The Boolean assignment read off a full 0/1 grid. -/
def gridFun (n : Nat) (grid : Grid) : Fin n → Fin n → Bool :=
  fun r c => getCell grid r.val c.val == 1

/-- The true number of `N × N` 0/1 grids (with `N = rowClues.length`, the
side used by `solve`) whose row and column clues match the given clue set
exactly. -/
def numSolutions (rowClues colClues : List Clue) : Nat :=
  Finset.card ((Finset.univ : Finset (Fin rowClues.length → Fin rowClues.length → Bool)).filter
    fun f => isValidSolution (gridOfFun rowClues.length f) rowClues colClues = true)

/-- Embeds the `Puzzle` record produced by `Generator.generate`. -/
structure Puzzle where
  size : Nat
  solution : Grid
  name : String
  created : String
deriving Repr, DecidableEq

/-- Embeds `Generator.generateRandomGrid`: each cell is filled exactly
when the sampled random number falls below the fill percentage; `coin r c`
abstracts the outcome `Math.random() < fillPercentage` for cell `(r, c)`. -/
def generateRandomGrid (size : Nat) (coin : Nat → Nat → Bool) : Grid :=
  (List.range size).map fun r => (List.range size).map fun c =>
    if coin r c then (1 : Int) else 0

/-- Attempt loop of `Generator.generate`: `remaining` attempts are left
and `attempt` is the index of the next one; `coins a` abstracts the random
draws of attempt `a`, and `dateStr` the value of `Utils.getDateString()`. -/
def generateAux (size : Nat) (coins : Nat → Nat → Nat → Bool) (dateStr : String) :
    Nat → Nat → Option Puzzle
  | 0, _ => none
  | remaining + 1, attempt =>
    let grid := generateRandomGrid size (coins attempt)
    let rowClues := calculateRows grid
    let colClues := calculateColumns grid
    let result := solve rowClues colClues 2
    if result.unique then
      some { size := size
             solution := grid
             name := "Random " ++ toString size ++ "×" ++ toString size
             created := dateStr }
    else
      generateAux size coins dateStr remaining (attempt + 1)

/-- Embeds `Generator.generate`: up to `maxAttempts` candidate grids are
sampled; the first whose clue set solves uniquely (bound 2) is returned as
a `Puzzle`, and `none` is returned if no attempt succeeds. -/
def generate (size maxAttempts : Nat) (coins : Nat → Nat → Nat → Bool)
    (dateStr : String) : Option Puzzle :=
  generateAux size coins dateStr maxAttempts 0

/-- Puzzle record as read by `loadPuzzle`; `size` and `solution` are
optional because the source guards against their absence (`!puzzle.size`
is also true for a present size of `0`, which the model folds into the
absent case via `getD`). -/
structure PuzzleRecord where
  size : Option Nat
  solution : Option Grid
deriving Repr, DecidableEq

/-- Embeds the validation part of `loadPuzzle` (player.js lines 57-70),
with a thrown `Error` modelled as `Except.error` of its message. -/
def loadPuzzle (puzzle : PuzzleRecord) : Except String Unit :=
  if puzzle.size.getD 0 = 0 ∨ puzzle.solution = none then
    .error "Invalid puzzle format"
  else
    let size := puzzle.size.getD 0
    let solution := puzzle.solution.getD []
    if size ≠ 10 ∧ size ≠ 15 then
      .error "Puzzle size must be 10 or 15"
    else if solution.length ≠ size ∨ (solution.getD 0 []).length ≠ size then
      .error "Puzzle dimensions do not match specified size"
    else
      .ok ()

/-- Square grid of the given side. -/
def SquareGrid (grid : Grid) (n : Nat) : Prop :=
  grid.length = n ∧ ∀ row ∈ grid, row.length = n

/-- A cell value belonging to a finished puzzle. -/
def BinaryCell (v : Int) : Prop :=
  v = 0 ∨ v = 1

/-- Working-grid invariant of the solver at position `pos`: cells at
row-major positions below `pos` are assigned 0/1 and all later cells are
Unknown. -/
def PartialGrid (grid : Grid) (n pos : Nat) : Prop :=
  SquareGrid grid n ∧ ∀ r c, r < n → c < n →
    (r * n + c < pos → BinaryCell (getCell grid r c)) ∧
    (pos ≤ r * n + c → getCell grid r c = -1)

/-- Fully assigned 0/1 grid. -/
def FullGrid (grid : Grid) (n : Nat) : Prop :=
  SquareGrid grid n ∧ ∀ r c, r < n → c < n → BinaryCell (getCell grid r c)

/-- `g'` agrees with `grid` on every row-major position below `pos`. -/
def Extends (g' grid : Grid) (n pos : Nat) : Prop :=
  ∀ r c, r < n → c < n → r * n + c < pos → getCell g' r c = getCell grid r c

/-- Full 0/1 grid satisfying the clue set and extending the partial
assignment of `grid` below `pos`. -/
def ValidExt (g' grid : Grid) (n : Nat) (rowClues colClues : List Clue)
    (pos : Nat) : Prop :=
  FullGrid g' n ∧ isValidSolution g' rowClues colClues = true ∧
    Extends g' grid n pos

/-- Every cell at a row-major position at or above `pos` is Unknown. -/
def UnknownFrom (grid : Grid) (n pos : Nat) : Prop :=
  ∀ r c, r < n → c < n → pos ≤ r * n + c → getCell grid r c = -1

/-- `segs` is no longer than `clues` and bounded by it pointwise. -/
def Dominated (segs clues : List Nat) : Prop :=
  segs.length ≤ clues.length ∧
    ∀ i (h : i < segs.length) (h' : i < clues.length),
      segs.get ⟨i, h⟩ ≤ clues.get ⟨i, h'⟩

/-- State of the segment loop of `canMatchClues` after a list of cells:
the currently open segment, if any. -/
def segState : List Int → Option Nat → Option Nat
  | [], acc => acc
  | c :: rest, acc =>
    if c = 1 then segState rest (some (acc.getD 0 + 1))
    else if c = 0 then segState rest none
    else segState rest acc

/-- Segments already closed by the segment loop of `canMatchClues` after a
list of cells. -/
def segOut : List Int → Option Nat → List Nat
  | [], _ => []
  | c :: rest, acc =>
    if c = 1 then segOut rest (some (acc.getD 0 + 1))
    else if c = 0 then
      match acc with
      | some cur => cur :: segOut rest none
      | none => segOut rest none
    else segOut rest acc

/-- The Boolean assignment `f` reproduces every cell of `grid` at
row-major positions below `pos`. -/
def agreesBelow (n : Nat) (grid : Grid) (f : Fin n → Fin n → Bool)
    (pos : Nat) : Prop :=
  ∀ r c : Fin n, r.val * n + c.val < pos →
    getCell grid r.val c.val = (if f r c then 1 else 0)

instance (n : Nat) (grid : Grid) (f : Fin n → Fin n → Bool) (pos : Nat) :
    Decidable (agreesBelow n grid f pos) := by
  unfold agreesBelow
  infer_instance

/-- Full specification of one `backtrack` call: the new solutions are
appended after the incoming ones; they are pairwise-distinct valid
extensions of the current partial assignment; the resulting solution count
is the number of valid extensions truncated at `maxSolutions`; the
returned flag records whether the bound is still unreached; and every
valid extension is found unless the flag reports the bound was hit. -/
def BtSpec (size : Nat) (rc cc : List Clue) (fuel pos : Nat) (grid : Grid)
    (sols : List Grid) (maxS : Nat) : Prop :=
  ∃ L,
    (backtrack size rc cc fuel grid pos sols maxS).2.1 = sols ++ L ∧
    L.Nodup ∧
    (∀ g' ∈ L, ValidExt g' grid size rc cc pos) ∧
    sols.length + L.length =
      min maxS (sols.length + countExt size rc cc fuel grid pos) ∧
    (backtrack size rc cc fuel grid pos sols maxS).2.2 =
      decide ((backtrack size rc cc fuel grid pos sols maxS).2.1.length < maxS) ∧
    ∀ g', ValidExt g' grid size rc cc pos →
      (backtrack size rc cc fuel grid pos sols maxS).2.2 = false ∨
        g' ∈ (backtrack size rc cc fuel grid pos sols maxS).2.1

/-! ### List and cell helpers -/

theorem getD_set_ne {α : Type} {l : List α} {i j : Nat} (h : i ≠ j) (a d : α) :
    (l.set i a).getD j d = l.getD j d := by
  induction l generalizing i j with
  | nil => simp
  | cons x xs ih =>
    cases i with
    | zero =>
      cases j with
      | zero => exact absurd rfl h
      | succ j => simp [List.getD]
    | succ i =>
      cases j with
      | zero => simp [List.getD]
      | succ j =>
        simp only [List.set, List.getD_cons_succ]
        exact ih (fun hij => h (congrArg Nat.succ hij))

theorem getD_set_eq {α : Type} : ∀ (l : List α) (i : Nat), i < l.length →
    ∀ (a d : α), (l.set i a).getD i d = a := by
  intro l
  induction l with
  | nil => intro i h; simp at h
  | cons x xs ih =>
    intro i h a d
    cases i with
    | zero => simp [List.getD]
    | succ i =>
      simp only [List.set, List.getD_cons_succ]
      exact ih i (by simpa using h) a d

theorem set_getD_self {α : Type} : ∀ (l : List α) (i : Nat) (d : α),
    l.set i (l.getD i d) = l := by
  intro l
  induction l with
  | nil => simp
  | cons x xs ih =>
    intro i d
    cases i with
    | zero => simp [List.getD]
    | succ i =>
      simp only [List.getD_cons_succ, List.set]
      rw [ih i d]

theorem length_setCell (grid : Grid) (r c : Nat) (v : Int) :
    (setCell grid r c v).length = grid.length := by
  simp [setCell]

theorem getCell_setCell_eq {grid : Grid} {r c : Nat} (hr : r < grid.length)
    (hc : c < (grid.getD r []).length) (v : Int) :
    getCell (setCell grid r c v) r c = v := by
  unfold getCell setCell
  rw [getD_set_eq _ _ hr, getD_set_eq _ _ hc]

theorem getCell_setCell_ne {grid : Grid} {r c r' c' : Nat}
    (h : r ≠ r' ∨ c ≠ c') (v : Int) :
    getCell (setCell grid r c v) r' c' = getCell grid r' c' := by
  unfold getCell setCell
  rcases h with h | h
  · rw [getD_set_ne h]
  · rcases eq_or_ne r r' with rfl | hr
    · by_cases hlen : r < grid.length
      · rw [getD_set_eq _ _ hlen, getD_set_ne h]
      · rw [List.set_eq_of_length_le (Nat.le_of_not_lt hlen)]
    · rw [getD_set_ne hr]

theorem setCell_setCell (grid : Grid) (r c : Nat) (a b : Int) :
    setCell (setCell grid r c a) r c b = setCell grid r c b := by
  unfold setCell
  by_cases hr : r < grid.length
  · rw [getD_set_eq _ _ hr, List.set_set, List.set_set]
  · simp only [List.set_eq_of_length_le (Nat.le_of_not_lt hr)]

theorem setCell_same {grid : Grid} {r c : Nat} {v : Int}
    (h : getCell grid r c = v) : setCell grid r c v = grid := by
  unfold getCell at h
  unfold setCell
  rw [← h, set_getD_self, set_getD_self]

theorem squareGrid_setCell {grid : Grid} {n : Nat} (hsq : SquareGrid grid n)
    (r c : Nat) (v : Int) : SquareGrid (setCell grid r c v) n := by
  obtain ⟨hlen, hrows⟩ := hsq
  constructor
  · simpa [setCell] using hlen
  · intro row hrow
    by_cases hr : r < grid.length
    · rcases List.mem_or_eq_of_mem_set hrow with h | h
      · exact hrows row h
      · subst h
        rw [List.length_set, List.getD_eq_getElem grid [] hr]
        exact hrows _ (List.getElem_mem hr)
    · rw [setCell, List.set_eq_of_length_le (Nat.le_of_not_lt hr)] at hrow
      exact hrows row hrow

theorem getD_row_length {grid : Grid} {n : Nat} (hsq : SquareGrid grid n)
    {r : Nat} (hr : r < n) : (grid.getD r []).length = n := by
  obtain ⟨hlen, hrows⟩ := hsq
  have hrg : r < grid.length := hlen ▸ hr
  rw [List.getD_eq_getElem grid [] hrg]
  exact hrows _ (List.getElem_mem hrg)

/-! ### Row-major position decoding -/

theorem pos_decode {n pos : Nat} (h : pos < n * n) :
    pos / n < n ∧ pos % n < n ∧ (pos / n) * n + pos % n = pos := by
  have hn : 0 < n := by
    rcases Nat.eq_zero_or_pos n with rfl | hn
    · simp at h
    · exact hn
  refine ⟨?_, Nat.mod_lt _ hn, ?_⟩
  · exact Nat.div_lt_of_lt_mul h
  · rw [Nat.mul_comm]
    exact Nat.div_add_mod pos n

theorem linear_index_inj {n r c r' c' : Nat} (hc : c < n) (hc' : c' < n)
    (h : r * n + c = r' * n + c') : r = r' ∧ c = c' := by
  have hr : r = r' := by
    have h1 : (r * n + c) / n = r := by
      rw [Nat.mul_comm, Nat.mul_add_div (Nat.lt_of_le_of_lt (Nat.zero_le _) hc),
        Nat.div_eq_of_lt hc, Nat.add_zero]
    have h2 : (r' * n + c') / n = r' := by
      rw [Nat.mul_comm, Nat.mul_add_div (Nat.lt_of_le_of_lt (Nat.zero_le _) hc'),
        Nat.div_eq_of_lt hc', Nat.add_zero]
    rw [← h1, h, h2]
  subst hr
  exact ⟨rfl, by omega⟩

/-! ### Segment-loop lemmas -/

theorem segmentsAux_decomp : ∀ (l : List Int) (acc : Option Nat),
    segmentsAux l acc = segOut l acc ++ (segState l acc).toList := by
  intro l
  induction l with
  | nil => intro acc; cases acc <;> rfl
  | cons c rest ih =>
    intro acc
    by_cases h1 : c = 1
    · simp [segmentsAux, segOut, segState, h1, ih]
    · by_cases h0 : c = 0
      · cases acc <;> simp [segmentsAux, segOut, segState, h1, h0, ih]
      · simp [segmentsAux, segOut, segState, h1, h0, ih]

theorem segmentsAux_append : ∀ (xs ys : List Int) (acc : Option Nat),
    segmentsAux (xs ++ ys) acc = segOut xs acc ++ segmentsAux ys (segState xs acc) := by
  intro xs
  induction xs with
  | nil => intro ys acc; cases acc <;> rfl
  | cons c rest ih =>
    intro ys acc
    by_cases h1 : c = 1
    · simp [segmentsAux, segOut, segState, h1, ih]
    · by_cases h0 : c = 0
      · cases acc <;> simp [segmentsAux, segOut, segState, h1, h0, ih]
      · simp [segmentsAux, segOut, segState, h1, h0, ih]

theorem segOut_replicate_neg (m : Nat) (acc : Option Nat) :
    segOut (List.replicate m (-1)) acc = [] := by
  induction m generalizing acc with
  | zero => rfl
  | succ m ih => simp [List.replicate, segOut, ih]

theorem segState_replicate_neg (m : Nat) (acc : Option Nat) :
    segState (List.replicate m (-1)) acc = acc := by
  induction m generalizing acc with
  | zero => rfl
  | succ m ih => simp [List.replicate, segState, ih]

theorem segmentsAux_replicate_neg (m : Nat) (acc : Option Nat) :
    segmentsAux (List.replicate m (-1)) acc = acc.toList := by
  rw [segmentsAux_decomp, segOut_replicate_neg, segState_replicate_neg]
  simp

theorem segmentsAux_unknown_tail (p : List Int) (m : Nat) :
    segmentsAux (p ++ List.replicate m (-1)) none = segmentsAux p none := by
  rw [segmentsAux_append, segmentsAux_replicate_neg, ← segmentsAux_decomp]

theorem segmentsAux_head_ge : ∀ (s : List Int), (∀ x ∈ s, x = 0 ∨ x = 1) →
    ∀ cur, ∃ h t, segmentsAux s (some cur) = h :: t ∧ cur ≤ h := by
  intro s
  induction s with
  | nil => intro _ cur; exact ⟨cur, [], rfl, Nat.le_refl _⟩
  | cons c rest ih =>
    intro hb cur
    rcases hb c (List.mem_cons_self c rest) with h0 | h1
    · subst h0
      refine ⟨cur, segmentsAux rest none, ?_, Nat.le_refl _⟩
      simp [segmentsAux]
    · subst h1
      obtain ⟨h, t, heq, hle⟩ :=
        ih (fun x hx => hb x (List.mem_cons_of_mem _ hx)) (cur + 1)
      refine ⟨h, t, ?_, Nat.le_of_succ_le hle⟩
      simpa [segmentsAux] using heq

theorem calculateLineAux_eq_segmentsAux : ∀ (l : List Int),
    (∀ x ∈ l, x = 0 ∨ x = 1) →
    calculateLineAux l 0 = segmentsAux l none ∧
      ∀ cnt, calculateLineAux l (cnt + 1) = segmentsAux l (some (cnt + 1)) := by
  intro l
  induction l with
  | nil =>
    refine fun _ => ⟨rfl, fun cnt => ?_⟩
    simp [calculateLineAux, segmentsAux]
  | cons c rest ih =>
    intro hb
    obtain ⟨ih0, ihs⟩ := ih fun x hx => hb x (List.mem_cons_of_mem _ hx)
    rcases hb c (List.mem_cons_self c rest) with h0 | h1
    · subst h0
      constructor
      · simpa [calculateLineAux, segmentsAux] using ih0
      · intro cnt
        simpa [calculateLineAux, segmentsAux] using ih0
    · subst h1
      constructor
      · simpa [calculateLineAux, segmentsAux] using ihs 0
      · intro cnt
        simpa [calculateLineAux, segmentsAux] using ihs (cnt + 1)

/-! ### Domination and the partial-feasibility test -/

theorem dominated_prefix (a b : List Nat) : Dominated a (a ++ b) := by
  refine ⟨by simp, ?_⟩
  intro i h h'
  exact Nat.le_of_eq (List.get_append i h).symm

theorem dominated_snoc_cons {cur h : Nat} (a : List Nat) (t : List Nat)
    (hle : cur ≤ h) : Dominated (a ++ [cur]) (a ++ h :: t) := by
  constructor
  · simp
  · intro i hi hi'
    have hi2 : i < a.length + 1 := by simpa using hi
    rcases Nat.lt_or_ge i a.length with hlt | hge
    · have e1 : (a ++ [cur]).get ⟨i, hi⟩ = a.get ⟨i, hlt⟩ := List.get_append i hlt
      have e2 : (a ++ h :: t).get ⟨i, hi'⟩ = a.get ⟨i, hlt⟩ := List.get_append i hlt
      rw [e1, e2]
    · have hieq : i = a.length := by omega
      subst hieq
      have e1 : (a ++ [cur]).get ⟨a.length, hi⟩ = cur := by
        simp [List.get_eq_getElem]
      have e2 : (a ++ h :: t).get ⟨a.length, hi'⟩ = h := by
        simp only [List.get_eq_getElem]
        rw [List.getElem_append_right (Nat.le_refl _)]
        simp
      rw [e1, e2]
      exact hle

theorem zip_all_le_of_dominated : ∀ (a b : List Nat), Dominated a b →
    ((a.zip b).all fun p => decide (p.1 ≤ p.2)) = true := by
  intro a
  induction a with
  | nil => intro b _; rfl
  | cons x xs ih =>
    intro b hd
    obtain ⟨hlen, hpt⟩ := hd
    cases b with
    | nil => simp at hlen
    | cons y ys =>
      simp only [List.zip_cons_cons, List.all_cons, Bool.and_eq_true,
        decide_eq_true_eq]
      constructor
      · exact hpt 0 (Nat.succ_le_succ (Nat.zero_le _)) (Nat.succ_le_succ (Nat.zero_le _))
      · refine ih ys ⟨Nat.le_of_succ_le_succ (by simpa using hlen), ?_⟩
        intro i h h'
        exact hpt (i + 1) (Nat.succ_le_succ h) (Nat.succ_le_succ h')

theorem canMatchClues_of_dominated {line : List Int} {clues : List Nat}
    (hd : Dominated (segmentsAux line none) clues) :
    canMatchClues line clues = true := by
  unfold canMatchClues
  rw [if_neg (by simpa using hd.1)]
  exact zip_all_le_of_dominated _ _ hd

theorem zip_self_all_eq : ∀ (a : List Nat),
    ((a.zip a).all fun p => p.1 == p.2) = true := by
  intro a
  induction a with
  | nil => rfl
  | cons x xs ih => simpa [List.zip_cons_cons] using ih

theorem cluesMatch_iff (a b : List Nat) : cluesMatch a b = true ↔ a = b := by
  constructor
  · intro h
    unfold cluesMatch at h
    split at h
    · simp at h
    · rename_i hlen
      have hlen' : a.length = b.length := by omega
      apply List.ext_getElem hlen'
      intro i h1 h2
      have hmem : (a[i], b[i]) ∈ a.zip b := by
        rw [List.mem_iff_getElem]
        refine ⟨i, by simp [List.length_zip]; omega, ?_⟩
        simp [List.getElem_zip]
      have := (List.all_eq_true.mp h) _ hmem
      simpa using this
  · rintro rfl
    unfold cluesMatch
    rw [if_neg (by simp)]
    exact zip_self_all_eq a

/-- Key prefix-feasibility fact: a known 0/1 prefix padded with Unknown
cells always passes `canMatchClues` against the clue of any full 0/1 line
sharing that prefix. -/
theorem prefix_canMatch (p s : List Int) (m : Nat)
    (hp : ∀ x ∈ p, x = 0 ∨ x = 1) (hs : ∀ x ∈ s, x = 0 ∨ x = 1) :
    canMatchClues (p ++ List.replicate m (-1)) (calculateLine (p ++ s)) = true := by
  have hps : ∀ x ∈ p ++ s, x = 0 ∨ x = 1 := by
    intro x hx
    rcases List.mem_append.mp hx with h | h
    · exact hp x h
    · exact hs x h
  have hcalc : calculateLineAux (p ++ s) 0 = segmentsAux (p ++ s) none :=
    (calculateLineAux_eq_segmentsAux _ hps).1
  have hsplit : segmentsAux (p ++ s) none =
      segOut p none ++ segmentsAux s (segState p none) :=
    segmentsAux_append p s none
  have hline : segmentsAux (p ++ List.replicate m (-1)) none = segmentsAux p none :=
    segmentsAux_unknown_tail p m
  apply canMatchClues_of_dominated
  rw [hline, segmentsAux_decomp]
  have hcl : calculateLine (p ++ s) =
      if (calculateLineAux (p ++ s) 0).length > 0 then calculateLineAux (p ++ s) 0
      else [0] := rfl
  rw [hcl]
  split
  · -- the full line has at least one run
    rw [hcalc, hsplit]
    cases hstate : segState p none with
    | none =>
      simp only [hstate, Option.toList, List.append_nil]
      exact dominated_prefix _ _
    | some cur =>
      obtain ⟨h, t, heq, hle⟩ := segmentsAux_head_ge s hs cur
      rw [heq]
      exact dominated_snoc_cons _ _ hle
  · -- the full line has no run: the prefix has no known segment either
    rename_i hnone
    rw [hcalc, hsplit] at hnone
    simp only [gt_iff_lt, Nat.not_lt, Nat.le_zero, List.length_eq_zero] at hnone
    obtain ⟨hout, hrest⟩ := List.append_eq_nil.mp hnone
    have hstate : segState p none = none := by
      cases hstate : segState p none with
      | none => rfl
      | some cur =>
        obtain ⟨h, t, heq, _⟩ := segmentsAux_head_ge s hs cur
        rw [hstate, heq] at hrest
        simp at hrest
    rw [hout, hstate]
    exact ⟨by simp, by intro i h h'; simp at h⟩

/-! ### Facts about `calculateLine` -/

theorem calculateLineAux_pos : ∀ (l : List Int) (cnt : Nat),
    ∀ x ∈ calculateLineAux l cnt, 0 < x := by
  intro l
  induction l with
  | nil =>
    intro cnt x hx
    unfold calculateLineAux at hx
    split at hx
    · simp at hx
      omega
    · simp at hx
  | cons c rest ih =>
    intro cnt x hx
    unfold calculateLineAux at hx
    split at hx
    · exact ih _ x hx
    · split at hx
      · rcases List.mem_cons.mp hx with rfl | hx'
        · omega
        · exact ih _ x hx'
      · exact ih _ x hx

theorem calculateLineAux_sum_bound : ∀ (l : List Int) (cnt : Nat),
    (calculateLineAux l cnt).sum + ((calculateLineAux l cnt).length - 1) ≤
      l.length + cnt := by
  intro l
  induction l with
  | nil =>
    intro cnt
    unfold calculateLineAux
    split <;> simp
  | cons c rest ih =>
    intro cnt
    unfold calculateLineAux
    split
    · have := ih (cnt + 1)
      simp only [List.length_cons]
      omega
    · split
      · have := ih 0
        simp only [List.sum_cons, List.length_cons]
        omega
      · have := ih 0
        simp only [List.length_cons]
        omega

theorem calculateLine_eq (line : List Int) : calculateLine line =
    if (calculateLineAux line 0).length > 0 then calculateLineAux line 0
    else [0] := rfl

theorem calculateLineAux_ne_nil_of_pos : ∀ (l : List Int) (cnt : Nat),
    0 < cnt → calculateLineAux l cnt ≠ [] := by
  intro l
  induction l with
  | nil =>
    intro cnt hc
    unfold calculateLineAux
    rw [if_pos hc]
    simp
  | cons c rest ih =>
    intro cnt hc
    unfold calculateLineAux
    split
    · exact ih _ (by omega)
    · simp

theorem calculateLineAux_ne_nil_of_one : ∀ (l : List Int), (1 : Int) ∈ l →
    ∀ cnt, calculateLineAux l cnt ≠ [] := by
  intro l
  induction l with
  | nil => intro h; simp at h
  | cons c rest ih =>
    intro h cnt
    unfold calculateLineAux
    split
    · exact calculateLineAux_ne_nil_of_pos rest _ (by omega)
    · rename_i hc1
      have hmem : (1 : Int) ∈ rest := by
        rcases List.mem_cons.mp h with h' | h'
        · exact absurd h'.symm hc1
        · exact h'
      split
      · simp [ih hmem 0]
      · exact ih hmem 0

theorem calculateLineAux_eq_nil_of_no_one : ∀ (l : List Int),
    (1 : Int) ∉ l → calculateLineAux l 0 = [] := by
  intro l
  induction l with
  | nil => intro _; rfl
  | cons c rest ih =>
    intro h
    have hc : c ≠ 1 := fun hce => h (by rw [hce]; exact List.mem_cons_self 1 rest)
    have hrest : (1 : Int) ∉ rest := fun hm => h (List.mem_cons_of_mem _ hm)
    unfold calculateLineAux
    rw [if_neg hc, if_neg (by omega : ¬ (0 : Nat) > 0)]
    exact ih hrest

theorem calculateLine_ne_nil (line : List Int) : calculateLine line ≠ [] := by
  rw [calculateLine_eq]
  split
  · rename_i h
    intro hc
    rw [hc] at h
    simp at h
  · simp

theorem calculateLine_of_no_one {line : List Int} (h : (1 : Int) ∉ line) :
    calculateLine line = [0] := by
  rw [calculateLine_eq, calculateLineAux_eq_nil_of_no_one line h]
  rfl

theorem calculateLine_of_one {line : List Int} (h : (1 : Int) ∈ line) :
    calculateLine line ≠ [0] := by
  rw [calculateLine_eq]
  have hne := calculateLineAux_ne_nil_of_one line h 0
  rw [if_pos (by
    cases hcl : calculateLineAux line 0 with
    | nil => exact absurd hcl hne
    | cons a t => simp)]
  intro hc
  have h0 : (0 : Nat) ∈ calculateLineAux line 0 := by
    rw [hc]
    exact List.mem_cons_self 0 []
  have := calculateLineAux_pos line 0 0 h0
  omega

theorem calculateLine_replicate_zero (n : Nat) :
    calculateLine (List.replicate n 0) = [0] :=
  calculateLine_of_no_one (by simp)

/-! ### Line structure under the solver invariant -/

theorem eq_take_append_replicate {a b : List Int} {n k : Nat}
    (ha : a.length = n) (hb : b.length = n) (hk : k ≤ n)
    (hagree : ∀ i, i < k → a.getD i (-1) = b.getD i (-1))
    (hunk : ∀ i, k ≤ i → i < n → a.getD i (-1) = -1) :
    a = b.take k ++ List.replicate (n - k) (-1) := by
  have hlen : a.length = (b.take k ++ List.replicate (n - k) (-1)).length := by
    simp [List.length_take, hb, ha]
    omega
  apply List.ext_getElem hlen
  intro i h1 h2
  rcases Nat.lt_or_ge i k with hik | hik
  · have hib : i < b.length := by omega
    have htk : i < (b.take k).length := by
      simp [List.length_take, hb]
      omega
    rw [List.getElem_append_left htk, List.getElem_take]
    have := hagree i hik
    rw [List.getD_eq_getElem a (-1) h1, List.getD_eq_getElem b (-1) hib] at this
    exact this
  · have htk : (b.take k).length ≤ i := by
      simp [List.length_take, hb]
      omega
    rw [List.getElem_append_right htk, List.getElem_replicate]
    have := hunk i hik (by omega)
    rw [List.getD_eq_getElem a (-1) h1] at this
    exact this

theorem all_known_of_binary {l : List Int} (h : ∀ x ∈ l, x = 0 ∨ x = 1) :
    (l.all fun cell => decide (cell ≠ -1)) = true := by
  rw [List.all_eq_true]
  intro x hx
  rcases h x hx with rfl | rfl <;> simp

theorem all_known_eq_false_of_mem {l : List Int} (h : (-1 : Int) ∈ l) :
    (l.all fun cell => decide (cell ≠ -1)) = false := by
  rw [List.all_eq_false]
  exact ⟨-1, h, by simp⟩

/-! ### Grid-level facts -/

theorem length_getColumn (grid : Grid) (col : Nat) :
    (getColumn grid col).length = grid.length := by
  simp [getColumn]

theorem getColumn_getD {grid : Grid} {r : Nat} (hr : r < grid.length)
    (col : Nat) : (getColumn grid col).getD r (-1) = getCell grid r col := by
  unfold getColumn getCell
  have hr2 : r < (grid.map fun row => row.getD col (-1)).length := by simpa using hr
  rw [List.getD_eq_getElem _ (-1) hr2, List.getElem_map,
    List.getD_eq_getElem grid [] hr]

theorem getCell_eq_getD (grid : Grid) (r c : Nat) :
    getCell grid r c = (grid.getD r []).getD c (-1) := rfl

theorem isValidSolution_iff {g : Grid} {rc cc : List Clue} :
    isValidSolution g rc cc = true ↔
      (∀ r, r < g.length → calculateLine (g.getD r []) = rc.getD r []) ∧
      (∀ c, c < g.length → calculateLine (getColumn g c) = cc.getD c []) := by
  unfold isValidSolution
  rw [Bool.and_eq_true, List.all_eq_true, List.all_eq_true]
  constructor
  · rintro ⟨h1, h2⟩
    constructor
    · intro r hr
      exact (cluesMatch_iff _ _).mp (h1 r (List.mem_range.mpr hr))
    · intro c hc
      exact (cluesMatch_iff _ _).mp (h2 c (List.mem_range.mpr hc))
  · rintro ⟨h1, h2⟩
    constructor
    · intro r hr
      exact (cluesMatch_iff _ _).mpr (h1 r (List.mem_range.mp hr))
    · intro c hc
      exact (cluesMatch_iff _ _).mpr (h2 c (List.mem_range.mp hc))

theorem fullGrid_row_binary {g : Grid} {n : Nat} (hf : FullGrid g n)
    {r : Nat} (hr : r < n) : ∀ x ∈ g.getD r [], x = 0 ∨ x = 1 := by
  intro x hx
  obtain ⟨hsq, hbin⟩ := hf
  have hlen : (g.getD r []).length = n := getD_row_length hsq hr
  obtain ⟨i, hi, hix⟩ := List.mem_iff_getElem.mp hx
  have : getCell g r i = x := by
    rw [getCell_eq_getD, List.getD_eq_getElem _ (-1) hi, hix]
  rw [← this]
  exact hbin r i hr (by omega)

theorem fullGrid_col_binary {g : Grid} {n : Nat} (hf : FullGrid g n)
    {col : Nat} (hcol : col < n) : ∀ x ∈ getColumn g col, x = 0 ∨ x = 1 := by
  intro x hx
  obtain ⟨hsq, hbin⟩ := hf
  obtain ⟨i, hi, hix⟩ := List.mem_iff_getElem.mp hx
  rw [length_getColumn] at hi
  have hin : i < n := hsq.1 ▸ hi
  have : getCell g i col = x := by
    rw [← getColumn_getD hi col, List.getD_eq_getElem _ (-1) (by
      rw [length_getColumn]; exact hi), hix]
  rw [← this]
  exact hbin i col hin hcol

theorem isValidPartial_eq (grid : Grid) (rc cc : List Clue) (row col : Nat) :
    isValidPartial grid rc cc row col =
      ((if (grid.getD row []).all (fun cell => decide (cell ≠ -1)) then
          cluesMatch (calculateLine (grid.getD row [])) (rc.getD row [])
        else canMatchClues (grid.getD row []) (rc.getD row [])) &&
       (if (getColumn grid col).all (fun cell => decide (cell ≠ -1)) then
          cluesMatch (calculateLine (getColumn grid col)) (cc.getD col [])
        else canMatchClues (getColumn grid col) (cc.getD col []))) := by
  by_cases h1 : ((grid.getD row []).all fun cell => decide (cell ≠ -1)) = true <;>
    by_cases h2 : ((getColumn grid col).all fun cell => decide (cell ≠ -1)) = true <;>
      simp only [isValidPartial, h1, h2, if_true, if_false,
        Bool.not_eq_true] at * <;>
    cases hrow : (if true = true then
        cluesMatch (calculateLine (grid.getD row [])) (rc.getD row [])
      else canMatchClues (grid.getD row []) (rc.getD row [])) <;> simp_all

/-- Soundness of the pruning tests: if some valid full grid extends the
partial assignment just after assigning position `pos`, then
`isValidPartial` accepts that assignment. -/
theorem isValidPartial_of_ext {n pos : Nat} {grid g' : Grid} {rc cc : List Clue}
    (hpos : pos < n * n) (hp : PartialGrid grid n (pos + 1))
    (hfull : FullGrid g' n) (hvalid : isValidSolution g' rc cc = true)
    (hext : Extends g' grid n (pos + 1)) :
    isValidPartial grid rc cc (pos / n) (pos % n) = true := by
  obtain ⟨hrown, hcoln, hdec⟩ := pos_decode hpos
  obtain ⟨hsq, hcells⟩ := hp
  have hglen : g'.length = n := hfull.1.1
  have hvr := (isValidSolution_iff.mp hvalid).1
  have hvc := (isValidSolution_iff.mp hvalid).2
  set row := pos / n with hrow
  set col := pos % n with hcol
  -- the working row is the known prefix of the corresponding row of g'
  have hrowlen : (grid.getD row []).length = n := getD_row_length hsq hrown
  have hrowlen' : (g'.getD row []).length = n := getD_row_length hfull.1 hrown
  have hrowbin := fullGrid_row_binary hfull hrown
  have hkeyrow : grid.getD row [] =
      (g'.getD row []).take (col + 1) ++ List.replicate (n - (col + 1)) (-1) := by
    apply eq_take_append_replicate hrowlen hrowlen' (by omega)
    · intro i hi
      have hin : i < n := by omega
      rw [← getCell_eq_getD, ← getCell_eq_getD]
      exact (hext row i hrown hin (by omega)).symm
    · intro i hik hin
      rw [← getCell_eq_getD]
      exact (hcells row i hrown hin).2 (by omega)
  -- the working column is the known prefix of the corresponding column of g'
  have hcollen : (getColumn grid col).length = n := by
    rw [length_getColumn, hsq.1]
  have hcollen' : (getColumn g' col).length = n := by
    rw [length_getColumn, hglen]
  have hcolbin := fullGrid_col_binary hfull hcoln
  have hkeycol : getColumn grid col =
      (getColumn g' col).take (row + 1) ++ List.replicate (n - (row + 1)) (-1) := by
    apply eq_take_append_replicate hcollen hcollen' (by omega)
    · intro i hi
      have hin : i < n := by omega
      have hig : i < grid.length := hsq.1 ▸ hin
      have hig' : i < g'.length := hglen ▸ hin
      rw [getColumn_getD hig col, getColumn_getD hig' col]
      have hmul : i * n ≤ row * n := Nat.mul_le_mul_right n (by omega)
      exact (hext i col hin hcoln (by omega)).symm
    · intro i hik hin
      have hig : i < grid.length := hsq.1 ▸ hin
      rw [getColumn_getD hig col]
      have hmul : row * n + n ≤ i * n := by
        have := Nat.mul_le_mul_right n (by omega : row + 1 ≤ i)
        simpa [Nat.add_mul] using this
      exact (hcells i col hin hcoln).2 (by omega)
  -- clue facts from the validity of g'
  have hrclue : rc.getD row [] = calculateLine (g'.getD row []) :=
    (hvr row (hglen ▸ hrown)).symm
  have hcclue : cc.getD col [] = calculateLine (getColumn g' col) :=
    (hvc col (hglen ▸ hcoln)).symm
  rw [isValidPartial_eq]
  have hrowok : (if (grid.getD row []).all (fun cell => decide (cell ≠ -1)) then
      cluesMatch (calculateLine (grid.getD row [])) (rc.getD row [])
    else canMatchClues (grid.getD row []) (rc.getD row [])) = true := by
    rcases Nat.eq_or_lt_of_le (by omega : col + 1 ≤ n) with hceq | hclt
    · -- the row is complete: it coincides with the row of g'
      have hfullrow : grid.getD row [] = g'.getD row [] := by
        rw [hkeyrow, hceq, List.take_of_length_le (Nat.le_of_eq hrowlen')]
        simp
      rw [hfullrow, if_pos (all_known_of_binary hrowbin), hrclue]
      exact (cluesMatch_iff _ _).mpr rfl
    · -- the row still has Unknown cells
      have hmem : (-1 : Int) ∈ grid.getD row [] := by
        rw [hkeyrow]
        exact List.mem_append_right _ (by
          rw [List.mem_replicate]
          exact ⟨by omega, rfl⟩)
      rw [if_neg (by rw [all_known_eq_false_of_mem hmem]; simp)]
      rw [hrclue, hkeyrow]
      have hsplit : g'.getD row [] =
          (g'.getD row []).take (col + 1) ++ (g'.getD row []).drop (col + 1) :=
        (List.take_append_drop _ _).symm
      rw [hsplit]
      rw [← hsplit]
      have := prefix_canMatch ((g'.getD row []).take (col + 1))
        ((g'.getD row []).drop (col + 1)) (n - (col + 1))
        (fun x hx => hrowbin x (List.mem_of_mem_take hx))
        (fun x hx => hrowbin x (List.mem_of_mem_drop hx))
      rw [List.take_append_drop] at this
      exact this
  have hcolok : (if (getColumn grid col).all (fun cell => decide (cell ≠ -1)) then
      cluesMatch (calculateLine (getColumn grid col)) (cc.getD col [])
    else canMatchClues (getColumn grid col) (cc.getD col [])) = true := by
    rcases Nat.eq_or_lt_of_le (by omega : row + 1 ≤ n) with hceq | hclt
    · have hfullcol : getColumn grid col = getColumn g' col := by
        rw [hkeycol, hceq, List.take_of_length_le (Nat.le_of_eq hcollen')]
        simp
      rw [hfullcol, if_pos (all_known_of_binary hcolbin), hcclue]
      exact (cluesMatch_iff _ _).mpr rfl
    · have hmem : (-1 : Int) ∈ getColumn grid col := by
        rw [hkeycol]
        exact List.mem_append_right _ (by
          rw [List.mem_replicate]
          exact ⟨by omega, rfl⟩)
      rw [if_neg (by rw [all_known_eq_false_of_mem hmem]; simp)]
      rw [hcclue, hkeycol]
      have := prefix_canMatch ((getColumn g' col).take (row + 1))
        ((getColumn g' col).drop (row + 1)) (n - (row + 1))
        (fun x hx => hcolbin x (List.mem_of_mem_take hx))
        (fun x hx => hcolbin x (List.mem_of_mem_drop hx))
      rw [List.take_append_drop] at this
      exact this
  rw [hrowok, hcolok]
  rfl

/-! ### Unfolding equations for `backtrack` and `countExt` -/

theorem backtrack_stop {size fuel pos maxS : Nat} {rc cc : List Clue}
    {grid : Grid} {sols : List Grid} (h : sols.length ≥ maxS) :
    backtrack size rc cc fuel grid pos sols maxS = (grid, sols, false) := by
  unfold backtrack
  rw [if_pos h]

theorem backtrack_term {size fuel pos maxS : Nat} {rc cc : List Clue}
    {grid : Grid} {sols : List Grid} (h1 : ¬ sols.length ≥ maxS)
    (h2 : pos ≥ size * size) :
    backtrack size rc cc fuel grid pos sols maxS =
      (grid,
       if isValidSolution grid rc cc then sols ++ [grid] else sols,
       decide ((if isValidSolution grid rc cc then sols ++ [grid]
         else sols).length < maxS)) := by
  unfold backtrack
  rw [if_neg h1, if_pos h2]

theorem backtrack_fuelzero {size pos maxS : Nat} {rc cc : List Clue}
    {grid : Grid} {sols : List Grid} (h1 : ¬ sols.length ≥ maxS)
    (h2 : ¬ pos ≥ size * size) :
    backtrack size rc cc 0 grid pos sols maxS = (grid, sols, false) := by
  unfold backtrack
  rw [if_neg h1, if_neg h2]

theorem backtrack_step {size fuel' pos maxS : Nat} {rc cc : List Clue}
    {grid : Grid} {sols : List Grid} (h1 : ¬ sols.length ≥ maxS)
    (h2 : ¬ pos ≥ size * size) :
    backtrack size rc cc (fuel' + 1) grid pos sols maxS =
      (let row := pos / size
       let col := pos % size
       let r1 :=
         if isValidPartial (setCell grid row col 1) rc cc row col then
           backtrack size rc cc fuel' (setCell grid row col 1) (pos + 1) sols maxS
         else (setCell grid row col 1, sols, true)
       if r1.2.2 then
         let r2 :=
           if isValidPartial (setCell r1.1 row col 0) rc cc row col then
             backtrack size rc cc fuel' (setCell r1.1 row col 0) (pos + 1) r1.2.1 maxS
           else (setCell r1.1 row col 0, r1.2.1, true)
         (setCell r2.1 row col (-1), r2.2.1, r2.2.2)
       else
         (setCell r1.1 row col (-1), r1.2.1, false)) := by
  conv_lhs => unfold backtrack
  rw [if_neg h1, if_neg h2]

theorem countExt_term {size fuel pos : Nat} {rc cc : List Clue} {grid : Grid}
    (h : pos ≥ size * size) :
    countExt size rc cc fuel grid pos =
      if isValidSolution grid rc cc then 1 else 0 := by
  unfold countExt
  rw [if_pos h]

theorem countExt_fuelzero {size pos : Nat} {rc cc : List Clue} {grid : Grid}
    (h : ¬ pos ≥ size * size) :
    countExt size rc cc 0 grid pos = 0 := by
  unfold countExt
  rw [if_neg h]

theorem countExt_step {size fuel' pos : Nat} {rc cc : List Clue} {grid : Grid}
    (h : ¬ pos ≥ size * size) :
    countExt size rc cc (fuel' + 1) grid pos =
      countExt size rc cc fuel' (setCell grid (pos / size) (pos % size) 1) (pos + 1) +
      countExt size rc cc fuel' (setCell grid (pos / size) (pos % size) 0) (pos + 1) := by
  conv_lhs => unfold countExt
  rw [if_neg h]

/-! ### Invariant propagation -/

theorem ne_pos_pair {n pos r c : Nat} (hr : r < n) (hc : c < n)
    (hpos : pos < n * n) (hne : r * n + c ≠ pos) :
    pos / n ≠ r ∨ pos % n ≠ c := by
  obtain ⟨h1, h2, h3⟩ := pos_decode hpos
  by_contra hcon
  push_neg at hcon
  obtain ⟨he1, he2⟩ := hcon
  rw [← he1, ← he2] at hne
  exact hne h3

theorem unknownFrom_setCell {grid : Grid} {n pos : Nat} (hpos : pos < n * n)
    (hu : UnknownFrom grid n pos) (v : Int) :
    UnknownFrom (setCell grid (pos / n) (pos % n) v) n (pos + 1) := by
  intro r c hr hc hge
  obtain ⟨h1, h2, h3⟩ := pos_decode hpos
  have hne : r * n + c ≠ pos := by omega
  rw [getCell_setCell_ne (ne_pos_pair hr hc hpos hne) v]
  exact hu r c hr hc (by omega)

theorem partialGrid_unknownFrom {grid : Grid} {n pos : Nat}
    (hp : PartialGrid grid n pos) : UnknownFrom grid n pos :=
  fun r c hr hc hge => (hp.2 r c hr hc).2 hge

theorem partialGrid_setCell {grid : Grid} {n pos : Nat}
    (hp : PartialGrid grid n pos) (hpos : pos < n * n) {v : Int}
    (hv : BinaryCell v) :
    PartialGrid (setCell grid (pos / n) (pos % n) v) n (pos + 1) := by
  obtain ⟨hsq, hcells⟩ := hp
  obtain ⟨h1, h2, h3⟩ := pos_decode hpos
  refine ⟨squareGrid_setCell hsq _ _ _, ?_⟩
  intro r c hr hc
  constructor
  · intro hlt
    rcases Nat.lt_or_ge (r * n + c) pos with hlt' | hge'
    · have hne : r * n + c ≠ pos := by omega
      rw [getCell_setCell_ne (ne_pos_pair hr hc hpos hne) v]
      exact (hcells r c hr hc).1 hlt'
    · have heq : r * n + c = pos := by omega
      obtain ⟨rfl, rfl⟩ := linear_index_inj hc h2 (heq.trans h3.symm)
      rw [getCell_setCell_eq (hsq.1 ▸ h1) (by
        rw [getD_row_length hsq h1]
        exact h2) v]
      exact hv
  · intro hge
    have hne : r * n + c ≠ pos := by omega
    rw [getCell_setCell_ne (ne_pos_pair hr hc hpos hne) v]
    exact (hcells r c hr hc).2 (by omega)

theorem partialGrid_full {grid : Grid} {n pos : Nat}
    (hp : PartialGrid grid n pos) (hpos : pos ≥ n * n) : FullGrid grid n := by
  obtain ⟨hsq, hcells⟩ := hp
  refine ⟨hsq, ?_⟩
  intro r c hr hc
  refine (hcells r c hr hc).1 ?_
  have h1 : r * n + c < n * n := by
    have hmul : (r + 1) * n ≤ n * n := by
      have := Nat.mul_le_mul_right n (by omega : r + 1 ≤ n)
      simpa [Nat.mul_comm] using this
    have : r * n + n ≤ n * n := by
      simpa [Nat.add_mul] using hmul
    omega
  omega

/-- Undo discipline of `backtrack`: on every return path the cell at the
current position is reset to Unknown, so a grid whose cells at positions
`≥ pos` are all Unknown comes back exactly as it went in. -/
theorem backtrack_restores (size : Nat) (rc cc : List Clue) :
    ∀ fuel pos grid sols maxS, UnknownFrom grid size pos →
      (backtrack size rc cc fuel grid pos sols maxS).1 = grid := by
  intro fuel
  induction fuel with
  | zero =>
    intro pos grid sols maxS hu
    by_cases h1 : sols.length ≥ maxS
    · rw [backtrack_stop h1]
    · by_cases h2 : pos ≥ size * size
      · rw [backtrack_term h1 h2]
      · rw [backtrack_fuelzero h1 h2]
  | succ fuel ih =>
    intro pos grid sols maxS hu
    by_cases h1 : sols.length ≥ maxS
    · rw [backtrack_stop h1]
    · by_cases h2 : pos ≥ size * size
      · rw [backtrack_term h1 h2]
      · rw [backtrack_step h1 h2]
        have hpos : pos < size * size := Nat.lt_of_not_ge h2
        obtain ⟨hrn, hcn, hdec⟩ := pos_decode hpos
        have hcell : getCell grid (pos / size) (pos % size) = -1 :=
          hu _ _ hrn hcn (by omega)
        have hu1 := unknownFrom_setCell hpos hu 1
        have hu0 := unknownFrom_setCell hpos hu 0
        simp only []
        split
        · -- Filled passes the partial check; its subtree restores its grid
          rw [ih (pos + 1) _ sols maxS hu1]
          split
          · rw [setCell_setCell]
            split
            · rw [ih (pos + 1) _ _ maxS hu0, setCell_setCell, setCell_same hcell]
            · rw [setCell_setCell, setCell_same hcell]
          · rw [setCell_setCell, setCell_same hcell]
        · -- Filled is pruned immediately
          split
          · rw [setCell_setCell]
            split
            · rw [ih (pos + 1) _ _ maxS hu0, setCell_setCell, setCell_same hcell]
            · rw [setCell_setCell, setCell_same hcell]
          · rw [setCell_setCell, setCell_same hcell]

/-! ### Valid extensions -/

theorem cell_index_lt {n r c : Nat} (hr : r < n) (hc : c < n) :
    r * n + c < n * n := by
  have hmul : (r + 1) * n ≤ n * n := Nat.mul_le_mul_right n (by omega)
  have h2 : r * n + n ≤ n * n := by
    calc r * n + n = (r + 1) * n := by rw [Nat.add_mul, Nat.one_mul]
    _ ≤ n * n := hmul
  omega

theorem grid_eq_of_cells {g g' : Grid} {n : Nat} (hsq : SquareGrid g n)
    (hsq' : SquareGrid g' n)
    (h : ∀ r c, r < n → c < n → getCell g r c = getCell g' r c) : g = g' := by
  apply List.ext_getElem (by rw [hsq.1, hsq'.1])
  intro i h1 h2
  have hin : i < n := hsq.1 ▸ h1
  have hrow : g[i].length = n := hsq.2 _ (List.getElem_mem h1)
  have hrow' : g'[i].length = n := hsq'.2 _ (List.getElem_mem h2)
  apply List.ext_getElem (by rw [hrow, hrow'])
  intro j hj1 hj2
  have hjn : j < n := hrow ▸ hj1
  have e1 : getCell g i j = g[i][j] := by
    rw [getCell_eq_getD, List.getD_eq_getElem g [] h1, List.getD_eq_getElem _ (-1) hj1]
  have e2 : getCell g' i j = g'[i][j] := by
    rw [getCell_eq_getD, List.getD_eq_getElem g' [] h2, List.getD_eq_getElem _ (-1) hj2]
  rw [← e1, ← e2]
  exact h i j hin hjn

theorem validExt_eq_of_terminal {g' grid : Grid} {n pos : Nat}
    {rc cc : List Clue} (h2 : pos ≥ n * n) (hp : PartialGrid grid n pos)
    (hext : ValidExt g' grid n rc cc pos) : g' = grid :=
  grid_eq_of_cells hext.1.1 hp.1 fun r c hr hc =>
    hext.2.2 r c hr hc (Nat.lt_of_lt_of_le (cell_index_lt hr hc) h2)

theorem validExt_of_setCell {g' grid : Grid} {n pos : Nat} {rc cc : List Clue}
    {v : Int} (hpos : pos < n * n)
    (h : ValidExt g' (setCell grid (pos / n) (pos % n) v) n rc cc (pos + 1)) :
    ValidExt g' grid n rc cc pos := by
  obtain ⟨hf, hv, hext⟩ := h
  refine ⟨hf, hv, ?_⟩
  intro r c hr hc hlt
  have hne : r * n + c ≠ pos := by omega
  rw [hext r c hr hc (by omega), getCell_setCell_ne (ne_pos_pair hr hc hpos hne) v]

theorem validExt_setCell_of_cell {g' grid : Grid} {n pos : Nat}
    {rc cc : List Clue} {v : Int} (hpos : pos < n * n) (hsq : SquareGrid grid n)
    (h : ValidExt g' grid n rc cc pos)
    (hcellv : getCell g' (pos / n) (pos % n) = v) :
    ValidExt g' (setCell grid (pos / n) (pos % n) v) n rc cc (pos + 1) := by
  obtain ⟨hf, hv, hext⟩ := h
  obtain ⟨h1, h2, h3⟩ := pos_decode hpos
  refine ⟨hf, hv, ?_⟩
  intro r c hr hc hlt
  rcases Nat.lt_or_ge (r * n + c) pos with hlt' | hge'
  · have hne : r * n + c ≠ pos := by omega
    rw [getCell_setCell_ne (ne_pos_pair hr hc hpos hne) v]
    exact hext r c hr hc hlt'
  · have heq : r * n + c = pos := by omega
    obtain ⟨rfl, rfl⟩ := linear_index_inj hc h2 (heq.trans h3.symm)
    rw [getCell_setCell_eq (hsq.1 ▸ h1) (by
      rw [getD_row_length hsq h1]
      exact h2) v]
    exact hcellv

theorem validExt_cell {g' grid : Grid} {n pos : Nat} {rc cc : List Clue}
    {v : Int} (hpos : pos < n * n) (hsq : SquareGrid grid n)
    (h : ValidExt g' (setCell grid (pos / n) (pos % n) v) n rc cc (pos + 1)) :
    getCell g' (pos / n) (pos % n) = v := by
  obtain ⟨h1, h2, h3⟩ := pos_decode hpos
  rw [h.2.2 _ _ h1 h2 (by omega)]
  exact getCell_setCell_eq (hsq.1 ▸ h1) (by
    rw [getD_row_length hsq h1]
    exact h2) v

theorem exists_ext_of_countExt_pos (size : Nat) (rc cc : List Clue) :
    ∀ fuel pos grid, PartialGrid grid size pos →
      0 < countExt size rc cc fuel grid pos →
      ∃ g', ValidExt g' grid size rc cc pos := by
  intro fuel
  induction fuel with
  | zero =>
    intro pos grid hp hpos
    by_cases h : pos ≥ size * size
    · rw [countExt_term h] at hpos
      split at hpos
      · rename_i hval
        exact ⟨grid, partialGrid_full hp h, hval, fun r c _ _ _ => rfl⟩
      · omega
    · rw [countExt_fuelzero h] at hpos
      omega
  | succ fuel ih =>
    intro pos grid hp hpos
    by_cases h : pos ≥ size * size
    · rw [countExt_term h] at hpos
      split at hpos
      · rename_i hval
        exact ⟨grid, partialGrid_full hp h, hval, fun r c _ _ _ => rfl⟩
      · omega
    · rw [countExt_step h] at hpos
      have hplt : pos < size * size := Nat.lt_of_not_ge h
      rcases Nat.lt_or_ge 0 (countExt size rc cc fuel
          (setCell grid (pos / size) (pos % size) 1) (pos + 1)) with hc1 | hc1
      · obtain ⟨g', hg'⟩ := ih (pos + 1) _
          (partialGrid_setCell hp hplt (Or.inr rfl)) hc1
        exact ⟨g', validExt_of_setCell hplt hg'⟩
      · have hc0 : 0 < countExt size rc cc fuel
            (setCell grid (pos / size) (pos % size) 0) (pos + 1) := by omega
        obtain ⟨g', hg'⟩ := ih (pos + 1) _
          (partialGrid_setCell hp hplt (Or.inl rfl)) hc0
        exact ⟨g', validExt_of_setCell hplt hg'⟩

theorem countExt_eq_zero_of_pruned {size : Nat} {rc cc : List Clue}
    (fuel : Nat) {pos : Nat} {grid : Grid} {v : Int} (hv : BinaryCell v)
    (hpos : pos < size * size) (hp : PartialGrid grid size pos)
    (hpruned : isValidPartial (setCell grid (pos / size) (pos % size) v) rc cc
      (pos / size) (pos % size) = false) :
    countExt size rc cc fuel (setCell grid (pos / size) (pos % size) v)
      (pos + 1) = 0 := by
  by_contra hne
  obtain ⟨g', hg'⟩ := exists_ext_of_countExt_pos size rc cc fuel (pos + 1) _
    (partialGrid_setCell hp hpos hv) (Nat.pos_of_ne_zero hne)
  have := isValidPartial_of_ext hpos (partialGrid_setCell hp hpos hv)
    hg'.1 hg'.2.1 hg'.2.2
  rw [hpruned] at this
  exact Bool.false_ne_true this

/-! ### Main correctness of the bounded search -/

theorem backtrack_main_stop {size : Nat} {rc cc : List Clue}
    {fuel pos : Nat} {grid : Grid} {sols : List Grid} {maxS : Nat}
    (h1 : sols.length ≥ maxS) (hlen : sols.length ≤ maxS) :
    BtSpec size rc cc fuel pos grid sols maxS := by
  refine ⟨[], ?_⟩
  rw [backtrack_stop h1]
  have hslen : sols.length = maxS := Nat.le_antisymm hlen h1
  refine ⟨by simp, List.nodup_nil, by simp, ?_, ?_, ?_⟩
  · simp only [List.length_nil]
    omega
  · simp [hslen]
  · intro g' _
    exact Or.inl rfl

theorem backtrack_main_term (size : Nat) (rc cc : List Clue) (fuel pos : Nat)
    (grid : Grid) (sols : List Grid) (maxS : Nat) (h2 : pos ≥ size * size)
    (hp : PartialGrid grid size pos) (hlen : sols.length ≤ maxS) :
    BtSpec size rc cc fuel pos grid sols maxS := by
  by_cases h1 : sols.length ≥ maxS
  · exact backtrack_main_stop h1 hlen
  · unfold BtSpec
    rw [backtrack_term h1 h2, countExt_term h2]
    by_cases hval : isValidSolution grid rc cc = true
    · rw [if_pos hval, if_pos hval]
      refine ⟨[grid], rfl, List.nodup_singleton _, ?_, ?_, rfl, ?_⟩
      · intro g' hg'
        rw [List.mem_singleton] at hg'
        subst hg'
        exact ⟨partialGrid_full hp h2, hval, fun r c _ _ _ => rfl⟩
      · simp only [List.length_singleton]
        omega
      · intro g' hg'
        right
        rw [validExt_eq_of_terminal h2 hp hg']
        simp
    · rw [if_neg hval, if_neg hval]
      refine ⟨[], by simp, List.nodup_nil, by simp, ?_, rfl, ?_⟩
      · simp only [List.length_nil]
        omega
      · intro g' hg'
        exfalso
        have hval' := hg'.2.1
        rw [validExt_eq_of_terminal h2 hp hg'] at hval'
        exact hval (by exact hval')

theorem backtrack_guarded (size : Nat) (rc cc : List Clue) (fuel pos maxS : Nat)
    (hpos : pos < size * size)
    (IH : ∀ grid' sols', PartialGrid grid' size (pos + 1) →
      sols'.length ≤ maxS → BtSpec size rc cc fuel (pos + 1) grid' sols' maxS)
    (grid : Grid) (hp : PartialGrid grid size pos) (v : Int) (hv : BinaryCell v)
    (sols : List Grid) (hlen : sols.length < maxS)
    (r : Grid × List Grid × Bool)
    (hr : r = if isValidPartial (setCell grid (pos / size) (pos % size) v) rc cc
        (pos / size) (pos % size) then
      backtrack size rc cc fuel (setCell grid (pos / size) (pos % size) v)
        (pos + 1) sols maxS
    else (setCell grid (pos / size) (pos % size) v, sols, true)) :
    r.1 = setCell grid (pos / size) (pos % size) v ∧
    ∃ L, r.2.1 = sols ++ L ∧ L.Nodup ∧
      (∀ g' ∈ L,
        ValidExt g' (setCell grid (pos / size) (pos % size) v) size rc cc (pos + 1)) ∧
      sols.length + L.length = min maxS (sols.length +
        countExt size rc cc fuel (setCell grid (pos / size) (pos % size) v) (pos + 1)) ∧
      r.2.2 = decide (r.2.1.length < maxS) ∧
      (∀ g', ValidExt g' (setCell grid (pos / size) (pos % size) v) size rc cc (pos + 1) →
        r.2.2 = false ∨ g' ∈ r.2.1) := by
  have hpv := partialGrid_setCell hp hpos hv
  subst hr
  split
  · constructor
    · exact backtrack_restores size rc cc fuel (pos + 1) _ sols maxS
        (partialGrid_unknownFrom hpv)
    · exact IH _ sols hpv (Nat.le_of_lt hlen)
  · rename_i hpruned
    have hpruned' : isValidPartial (setCell grid (pos / size) (pos % size) v) rc cc
        (pos / size) (pos % size) = false := Bool.eq_false_iff.mpr hpruned
    have hcz := countExt_eq_zero_of_pruned fuel hv hpos hp hpruned'
    refine ⟨rfl, [], by simp, List.nodup_nil, by simp, ?_, ?_, ?_⟩
    · rw [hcz]
      simp only [List.length_nil]
      omega
    · simp [hlen]
    · intro g' hg'
      exfalso
      have := isValidPartial_of_ext hpos hpv hg'.1 hg'.2.1 hg'.2.2
      rw [hpruned'] at this
      exact Bool.false_ne_true this

/-- Main correctness theorem of the bounded backtracking search, by
induction on the remaining fuel. -/
theorem backtrack_main (size : Nat) (rc cc : List Clue) :
    ∀ fuel pos grid sols maxS, size * size ≤ fuel + pos →
      PartialGrid grid size pos → sols.length ≤ maxS →
      BtSpec size rc cc fuel pos grid sols maxS := by
  intro fuel
  induction fuel with
  | zero =>
    intro pos grid sols maxS hfuel hp hlen
    exact backtrack_main_term size rc cc 0 pos grid sols maxS (by omega) hp hlen
  | succ fuel ih =>
    intro pos grid sols maxS hfuel hp hlen
    by_cases h2 : pos ≥ size * size
    · exact backtrack_main_term size rc cc (fuel + 1) pos grid sols maxS h2 hp hlen
    by_cases h1 : sols.length ≥ maxS
    · exact backtrack_main_stop h1 hlen
    have hpos : pos < size * size := Nat.lt_of_not_ge h2
    have hlt : sols.length < maxS := Nat.lt_of_not_ge h1
    obtain ⟨hrn, hcn, hdec⟩ := pos_decode hpos
    have IH' : ∀ grid' sols', PartialGrid grid' size (pos + 1) →
        sols'.length ≤ maxS → BtSpec size rc cc fuel (pos + 1) grid' sols' maxS :=
      fun g' s' hp' hl' => ih (pos + 1) g' s' maxS (by omega) hp' hl'
    unfold BtSpec
    rw [backtrack_step h1 h2, countExt_step h2]
    simp only []
    set e1 := if isValidPartial (setCell grid (pos / size) (pos % size) 1) rc cc
        (pos / size) (pos % size) then
      backtrack size rc cc fuel (setCell grid (pos / size) (pos % size) 1)
        (pos + 1) sols maxS
    else (setCell grid (pos / size) (pos % size) 1, sols, true) with he1
    obtain ⟨hr1g, L1, hL1eq, hL1nd, hL1ext, hL1cnt, hL1bool, hL1mem⟩ :=
      backtrack_guarded size rc cc fuel pos maxS hpos IH' grid hp 1 (Or.inr rfl)
        sols hlt e1 he1
    have hlen1 : e1.2.1.length = sols.length + L1.length := by
      rw [hL1eq, List.length_append]
    by_cases hflag : e1.2.2 = true
    · -- the Filled subtree did not hit the bound; the Empty subtree runs
      rw [if_pos hflag, hr1g, setCell_setCell]
      have hlt1 : e1.2.1.length < maxS :=
        of_decide_eq_true (hL1bool.symm.trans hflag)
      set e2 := if isValidPartial (setCell grid (pos / size) (pos % size) 0) rc cc
          (pos / size) (pos % size) then
        backtrack size rc cc fuel (setCell grid (pos / size) (pos % size) 0)
          (pos + 1) e1.2.1 maxS
      else (setCell grid (pos / size) (pos % size) 0, e1.2.1, true) with he2
      obtain ⟨hr2g, L2, hL2eq, hL2nd, hL2ext, hL2cnt, hL2bool, hL2mem⟩ :=
        backtrack_guarded size rc cc fuel pos maxS hpos IH' grid hp 0 (Or.inl rfl)
          e1.2.1 hlt1 e2 he2
      rw [hlen1] at hL2cnt hlt1
      refine ⟨L1 ++ L2, ?_, ?_, ?_, ?_, ?_, ?_⟩
      · show e2.2.1 = sols ++ (L1 ++ L2)
        rw [hL2eq, hL1eq, List.append_assoc]
      · refine List.Nodup.append hL1nd hL2nd ?_
        intro a ha1 ha2
        have hc1 := validExt_cell hpos hp.1 (hL1ext a ha1)
        have hc0 := validExt_cell hpos hp.1 (hL2ext a ha2)
        rw [hc1] at hc0
        exact absurd hc0 (by norm_num)
      · intro g' hg'
        rcases List.mem_append.mp hg' with h | h
        · exact validExt_of_setCell hpos (hL1ext g' h)
        · exact validExt_of_setCell hpos (hL2ext g' h)
      · show sols.length + (L1 ++ L2).length = _
        rw [List.length_append]
        omega
      · show e2.2.2 = decide (e2.2.1.length < maxS)
        exact hL2bool
      · intro g' hg'
        rcases hg'.1.2 (pos / size) (pos % size) hrn hcn with hcell | hcell
        · rcases hL2mem g' (validExt_setCell_of_cell hpos hp.1 hg' hcell) with hb | hm
          · exact Or.inl hb
          · exact Or.inr hm
        · rcases hL1mem g' (validExt_setCell_of_cell hpos hp.1 hg' hcell) with hb | hm
          · rw [hflag] at hb
            exact absurd hb (by simp)
          · refine Or.inr ?_
            show g' ∈ e2.2.1
            rw [hL2eq]
            exact List.mem_append_left _ hm
    · -- the Filled subtree already collected `maxSolutions` solutions
      have hflag' : e1.2.2 = false := Bool.eq_false_iff.mpr hflag
      rw [if_neg hflag]
      have hd : decide (e1.2.1.length < maxS) = false := hL1bool.symm.trans hflag'
      have hnlt : ¬ e1.2.1.length < maxS := of_decide_eq_false hd
      refine ⟨L1, hL1eq, hL1nd, ?_, ?_, ?_, ?_⟩
      · intro g' h
        exact validExt_of_setCell hpos (hL1ext g' h)
      · omega
      · show (false : Bool) = decide (e1.2.1.length < maxS)
        rw [hd]
      · intro g' _
        exact Or.inl rfl

/-! ### Counting the satisfying 0/1 grids -/

theorem squareGrid_gridOfFun (n : Nat) (f : Fin n → Fin n → Bool) :
    SquareGrid (gridOfFun n f) n := by
  constructor
  · simp [gridOfFun]
  · intro row hrow
    unfold gridOfFun at hrow
    obtain ⟨i, hi⟩ := Set.mem_range.mp ((List.mem_ofFn _ _).mp hrow)
    rw [← hi]
    simp

theorem getCell_gridOfFun {n : Nat} (f : Fin n → Fin n → Bool) {r c : Nat}
    (hr : r < n) (hc : c < n) :
    getCell (gridOfFun n f) r c = if f ⟨r, hr⟩ ⟨c, hc⟩ then 1 else 0 := by
  unfold gridOfFun getCell
  rw [List.getD_eq_getElem _ [] (by simpa using hr), List.getElem_ofFn,
    List.getD_eq_getElem _ (-1) (by simpa using hc), List.getElem_ofFn]

theorem fullGrid_gridOfFun (n : Nat) (f : Fin n → Fin n → Bool) :
    FullGrid (gridOfFun n f) n := by
  refine ⟨squareGrid_gridOfFun n f, ?_⟩
  intro r c hr hc
  rw [getCell_gridOfFun f hr hc]
  split
  · exact Or.inr rfl
  · exact Or.inl rfl

theorem gridOfFun_gridFun {g : Grid} {n : Nat} (hg : FullGrid g n) :
    gridOfFun n (gridFun n g) = g := by
  apply grid_eq_of_cells (squareGrid_gridOfFun n _) hg.1
  intro r c hr hc
  rw [getCell_gridOfFun _ hr hc]
  unfold gridFun
  rcases hg.2 r c hr hc with h0 | h1
  · rw [h0]
    norm_num
  · rw [h1]
    norm_num

theorem gridFun_gridOfFun (n : Nat) (f : Fin n → Fin n → Bool) :
    gridFun n (gridOfFun n f) = f := by
  funext r c
  unfold gridFun
  rw [getCell_gridOfFun f r.isLt c.isLt]
  cases hfc : f ⟨r.val, r.isLt⟩ ⟨c.val, c.isLt⟩ <;> rfl

theorem gridFun_inj {g g' : Grid} {n : Nat} (hg : FullGrid g n)
    (hg' : FullGrid g' n) (h : gridFun n g = gridFun n g') : g = g' := by
  rw [← gridOfFun_gridFun hg, ← gridOfFun_gridFun hg', h]

theorem agreesBelow_total {n pos : Nat} {grid : Grid}
    (h2 : pos ≥ n * n) (hfull : FullGrid grid n)
    (f : Fin n → Fin n → Bool) :
    agreesBelow n grid f pos ↔ f = gridFun n grid := by
  constructor
  · intro ha
    funext r c
    have h := ha r c (Nat.lt_of_lt_of_le (cell_index_lt r.isLt c.isLt) h2)
    unfold gridFun
    rcases Bool.eq_false_or_eq_true (f r c) with hfc | hfc
    · rw [hfc] at h
      simp only [Bool.false_eq_true, if_false] at h
      rw [hfc, h]
      rfl
    · rw [hfc] at h
      norm_num at h
      rw [hfc, h]
      rfl
  · rintro rfl
    intro r c _
    unfold gridFun
    rcases hfull.2 r.val c.val r.isLt c.isLt with h0 | h1
    · rw [h0]
      norm_num
    · rw [h1]
      norm_num

theorem countExt_card_term {size pos : Nat} {rc cc : List Clue} {grid : Grid}
    (fuel : Nat) (h2 : pos ≥ size * size) (hp : PartialGrid grid size pos) :
    countExt size rc cc fuel grid pos =
      Finset.card ((Finset.univ : Finset (Fin size → Fin size → Bool)).filter
        fun f => isValidSolution (gridOfFun size f) rc cc = true ∧
          agreesBelow size grid f pos) := by
  rw [countExt_term h2]
  have hfull := partialGrid_full hp h2
  by_cases hval : isValidSolution grid rc cc = true
  · rw [if_pos hval]
    have hset : ((Finset.univ : Finset (Fin size → Fin size → Bool)).filter
        fun f => isValidSolution (gridOfFun size f) rc cc = true ∧
          agreesBelow size grid f pos) = {gridFun size grid} := by
      apply Finset.ext
      intro f
      rw [Finset.mem_filter, Finset.mem_singleton]
      constructor
      · rintro ⟨_, _, ha⟩
        exact (agreesBelow_total h2 hfull f).mp ha
      · rintro rfl
        refine ⟨Finset.mem_univ _, ?_, (agreesBelow_total h2 hfull _).mpr rfl⟩
        rw [gridOfFun_gridFun hfull]
        exact hval
    rw [hset, Finset.card_singleton]
  · rw [if_neg hval]
    have hset : ((Finset.univ : Finset (Fin size → Fin size → Bool)).filter
        fun f => isValidSolution (gridOfFun size f) rc cc = true ∧
          agreesBelow size grid f pos) = ∅ := by
      apply Finset.ext
      intro f
      rw [Finset.mem_filter]
      simp only [Finset.not_mem_empty, iff_false]
      rintro ⟨_, hfv, ha⟩
      have hf := (agreesBelow_total h2 hfull f).mp ha
      rw [hf, gridOfFun_gridFun hfull] at hfv
      exact hval hfv
    rw [hset, Finset.card_empty]

theorem agreesBelow_setCell_iff {n pos : Nat} {grid : Grid}
    (hpos : pos < n * n) (hsq : SquareGrid grid n)
    (f : Fin n → Fin n → Bool) (b : Bool) :
    agreesBelow n (setCell grid (pos / n) (pos % n) (if b then 1 else 0)) f
        (pos + 1) ↔
      agreesBelow n grid f pos ∧
        f ⟨pos / n, (pos_decode hpos).1⟩ ⟨pos % n, (pos_decode hpos).2.1⟩ = b := by
  obtain ⟨h1, h2, h3⟩ := pos_decode hpos
  constructor
  · intro h
    constructor
    · intro r c hlt
      have hne : r.val * n + c.val ≠ pos := by omega
      have := h r c (by omega)
      rw [getCell_setCell_ne (ne_pos_pair r.isLt c.isLt hpos hne) _] at this
      exact this
    · have := h ⟨pos / n, h1⟩ ⟨pos % n, h2⟩ (by simpa using Nat.lt_succ_of_le (Nat.le_of_eq h3))
      rw [getCell_setCell_eq (hsq.1 ▸ h1) (by
        rw [getD_row_length hsq h1]
        exact h2) _] at this
      cases hb : b <;> cases hfc : f ⟨pos / n, h1⟩ ⟨pos % n, h2⟩ <;>
        rw [hb, hfc] at this <;> simp_all
  · rintro ⟨ha, hb⟩
    intro r c hlt
    rcases Nat.lt_or_ge (r.val * n + c.val) pos with hlt' | hge'
    · have hne : r.val * n + c.val ≠ pos := by omega
      rw [getCell_setCell_ne (ne_pos_pair r.isLt c.isLt hpos hne) _]
      exact ha r c hlt'
    · have heq : r.val * n + c.val = pos := by omega
      obtain ⟨hr, hc⟩ := linear_index_inj c.isLt h2 (heq.trans h3.symm)
      have hrf : r = ⟨pos / n, h1⟩ := Fin.ext hr
      have hcf : c = ⟨pos % n, h2⟩ := Fin.ext hc
      subst hrf hcf
      rw [getCell_setCell_eq (hsq.1 ▸ h1) (by
        rw [getD_row_length hsq h1]
        exact h2) _, hb]

/-- The number of valid full extensions computed by the search tree equals
the cardinality of the set of Boolean assignments that satisfy the clue
set and agree with the partial assignment. -/
theorem countExt_card (size : Nat) (rc cc : List Clue) :
    ∀ fuel pos grid, size * size ≤ fuel + pos → PartialGrid grid size pos →
      countExt size rc cc fuel grid pos =
        Finset.card ((Finset.univ : Finset (Fin size → Fin size → Bool)).filter
          fun f => isValidSolution (gridOfFun size f) rc cc = true ∧
            agreesBelow size grid f pos) := by
  intro fuel
  induction fuel with
  | zero =>
    intro pos grid hfuel hp
    exact countExt_card_term 0 (by omega) hp
  | succ fuel ih =>
    intro pos grid hfuel hp
    by_cases h2 : pos ≥ size * size
    · exact countExt_card_term (fuel + 1) h2 hp
    have hpos : pos < size * size := Nat.lt_of_not_ge h2
    obtain ⟨h1, h2', h3⟩ := pos_decode hpos
    rw [countExt_step h2,
      ih (pos + 1) _ (by omega) (partialGrid_setCell hp hpos (Or.inr rfl)),
      ih (pos + 1) _ (by omega) (partialGrid_setCell hp hpos (Or.inl rfl))]
    have e1 : ((Finset.univ : Finset (Fin size → Fin size → Bool)).filter
        fun f => isValidSolution (gridOfFun size f) rc cc = true ∧
          agreesBelow size (setCell grid (pos / size) (pos % size) 1) f (pos + 1)) =
        ((Finset.univ : Finset (Fin size → Fin size → Bool)).filter
          fun f => (isValidSolution (gridOfFun size f) rc cc = true ∧
            agreesBelow size grid f pos) ∧
            f ⟨pos / size, h1⟩ ⟨pos % size, h2'⟩ = true) := by
      apply Finset.filter_congr
      intro f _
      have hiff := agreesBelow_setCell_iff hpos hp.1 f true
      norm_num at hiff
      constructor
      · rintro ⟨hv, ha⟩
        obtain ⟨ha', hb⟩ := hiff.mp ha
        exact ⟨⟨hv, ha'⟩, hb⟩
      · rintro ⟨⟨hv, ha'⟩, hb⟩
        exact ⟨hv, hiff.mpr ⟨ha', hb⟩⟩
    have e0 : ((Finset.univ : Finset (Fin size → Fin size → Bool)).filter
        fun f => isValidSolution (gridOfFun size f) rc cc = true ∧
          agreesBelow size (setCell grid (pos / size) (pos % size) 0) f (pos + 1)) =
        ((Finset.univ : Finset (Fin size → Fin size → Bool)).filter
          fun f => (isValidSolution (gridOfFun size f) rc cc = true ∧
            agreesBelow size grid f pos) ∧
            f ⟨pos / size, h1⟩ ⟨pos % size, h2'⟩ = false) := by
      apply Finset.filter_congr
      intro f _
      have hiff := agreesBelow_setCell_iff hpos hp.1 f false
      norm_num at hiff
      constructor
      · rintro ⟨hv, ha⟩
        obtain ⟨ha', hb⟩ := hiff.mp ha
        exact ⟨⟨hv, ha'⟩, hb⟩
      · rintro ⟨⟨hv, ha'⟩, hb⟩
        exact ⟨hv, hiff.mpr ⟨ha', hb⟩⟩
    rw [e1, e0]
    have hsplit : ((((Finset.univ : Finset (Fin size → Fin size → Bool)).filter
          fun f => isValidSolution (gridOfFun size f) rc cc = true ∧
            agreesBelow size grid f pos).filter
          fun f => f ⟨pos / size, h1⟩ ⟨pos % size, h2'⟩ = true).card +
        (((Finset.univ : Finset (Fin size → Fin size → Bool)).filter
          fun f => isValidSolution (gridOfFun size f) rc cc = true ∧
            agreesBelow size grid f pos).filter
          fun f => ¬ f ⟨pos / size, h1⟩ ⟨pos % size, h2'⟩ = true).card) =
        ((Finset.univ : Finset (Fin size → Fin size → Bool)).filter
          fun f => isValidSolution (gridOfFun size f) rc cc = true ∧
            agreesBelow size grid f pos).card :=
      Finset.filter_card_add_filter_neg_card_eq_card _
    rw [Finset.filter_filter, Finset.filter_filter] at hsplit
    have hneg : ((Finset.univ : Finset (Fin size → Fin size → Bool)).filter
        fun f => (isValidSolution (gridOfFun size f) rc cc = true ∧
          agreesBelow size grid f pos) ∧
          ¬ f ⟨pos / size, h1⟩ ⟨pos % size, h2'⟩ = true) =
        ((Finset.univ : Finset (Fin size → Fin size → Bool)).filter
          fun f => (isValidSolution (gridOfFun size f) rc cc = true ∧
            agreesBelow size grid f pos) ∧
            f ⟨pos / size, h1⟩ ⟨pos % size, h2'⟩ = false) := by
      apply Finset.filter_congr
      intro f _
      simp [Bool.not_eq_true]
    rw [hneg] at hsplit
    exact hsplit

theorem partialGrid_empty (n : Nat) : PartialGrid (create2DArray n n (-1)) n 0 := by
  constructor
  · constructor
    · simp [create2DArray]
    · intro row hrow
      rw [List.eq_of_mem_replicate hrow]
      simp
  · intro r c hr hc
    refine ⟨fun h => absurd h (by omega), fun _ => ?_⟩
    unfold getCell create2DArray
    rw [List.getD_eq_getElem _ [] (by simpa using hr), List.getElem_replicate,
      List.getD_eq_getElem _ (-1) (by simpa using hc), List.getElem_replicate]

theorem numSolutions_eq_countExt (rc cc : List Clue) :
    numSolutions rc cc = countExt rc.length rc cc (rc.length * rc.length)
      (create2DArray rc.length rc.length (-1)) 0 := by
  rw [countExt_card rc.length rc cc (rc.length * rc.length) 0 _ (by omega)
    (partialGrid_empty rc.length)]
  unfold numSolutions
  congr 1
  apply Finset.filter_congr
  intro f _
  constructor
  · intro hv
    exact ⟨hv, fun r c h => absurd h (by omega)⟩
  · rintro ⟨hv, _⟩
    exact hv

/-- A duplicate-free list of valid full grids whose length equals the
total number of satisfying assignments must contain every valid full
grid. -/
theorem mem_of_valid_of_card (n : Nat) (rc cc : List Clue) (L : List Grid)
    (hnd : L.Nodup)
    (hmem : ∀ g ∈ L, FullGrid g n ∧ isValidSolution g rc cc = true)
    (hlen : L.length =
      Finset.card ((Finset.univ : Finset (Fin n → Fin n → Bool)).filter
        fun f => isValidSolution (gridOfFun n f) rc cc = true))
    {g : Grid} (hg : FullGrid g n) (hgv : isValidSolution g rc cc = true) :
    g ∈ L := by
  set S := (Finset.univ : Finset (Fin n → Fin n → Bool)).filter
    (fun f => isValidSolution (gridOfFun n f) rc cc = true) with hS
  set M := L.map (gridFun n) with hM
  have hMnd : M.Nodup := by
    refine List.Nodup.map_on ?_ hnd
    intro a ha b hb hab
    exact gridFun_inj (hmem a ha).1 (hmem b hb).1 hab
  have hMS : ∀ f ∈ M, f ∈ S := by
    intro f hf
    obtain ⟨a, haL, rfl⟩ := List.mem_map.mp hf
    rw [hS, Finset.mem_filter]
    refine ⟨Finset.mem_univ _, ?_⟩
    rw [gridOfFun_gridFun (hmem a haL).1]
    exact (hmem a haL).2
  have hsub : M.toFinset ⊆ S := fun f hf => hMS f (List.mem_toFinset.mp hf)
  have hcard : S.card ≤ M.toFinset.card := by
    rw [List.toFinset_card_of_nodup hMnd, hM, List.length_map, ← hlen]
  have heq : M.toFinset = S := Finset.eq_of_subset_of_card_le hsub hcard
  have hgS : gridFun n g ∈ S := by
    rw [hS, Finset.mem_filter]
    refine ⟨Finset.mem_univ _, ?_⟩
    rw [gridOfFun_gridFun hg]
    exact hgv
  rw [← heq] at hgS
  obtain ⟨a, haL, hag⟩ := List.mem_map.mp (List.mem_toFinset.mp hgS)
  have hae : a = g := gridFun_inj (hmem a haL).1 hg hag
  rw [← hae]
  exact haL

/-- Master specification of `solve`: the solution list enumerates the
satisfying grids truncated at the bound, the flags are computed from its
length, its entries are distinct valid full grids, and no satisfying grid
is missed when the bound admits them all. -/
theorem solve_spec (rc cc : List Clue) (maxS : Nat) :
    (solve rc cc maxS).solutions.length = min maxS (numSolutions rc cc) ∧
    (solve rc cc maxS).unique =
      decide ((solve rc cc maxS).solutions.length = 1) ∧
    (solve rc cc maxS).solvable =
      decide ((solve rc cc maxS).solutions.length > 0) ∧
    (solve rc cc maxS).solutions.Nodup ∧
    (∀ g ∈ (solve rc cc maxS).solutions,
      FullGrid g rc.length ∧ isValidSolution g rc cc = true) ∧
    (∀ g, FullGrid g rc.length → isValidSolution g rc cc = true →
      numSolutions rc cc ≤ maxS → g ∈ (solve rc cc maxS).solutions) := by
  obtain ⟨L, hLeq, hLnd, hLext, hLcnt, hLbool, hLmem⟩ :=
    backtrack_main rc.length rc cc (rc.length * rc.length) 0
      (create2DArray rc.length rc.length (-1)) [] maxS (by omega)
      (partialGrid_empty rc.length) (by simp)
  have hsols : (solve rc cc maxS).solutions =
      (backtrack rc.length rc cc (rc.length * rc.length)
        (create2DArray rc.length rc.length (-1)) 0 [] maxS).2.1 := rfl
  have hL : (solve rc cc maxS).solutions = L := by
    rw [hsols, hLeq, List.nil_append]
  have hlenL : L.length = min maxS (numSolutions rc cc) := by
    rw [numSolutions_eq_countExt]
    simpa using hLcnt
  refine ⟨by rw [hL]; exact hlenL, rfl, rfl, by rw [hL]; exact hLnd, ?_, ?_⟩
  · intro g hgmem
    rw [hL] at hgmem
    obtain ⟨hf, hv, _⟩ := hLext g hgmem
    exact ⟨hf, hv⟩
  · intro g hgf hgv hk
    have hext : ValidExt g (create2DArray rc.length rc.length (-1)) rc.length
        rc cc 0 := ⟨hgf, hgv, fun r c _ _ h => absurd h (by omega)⟩
    rcases hLmem g hext with hb | hm
    · -- bound exactly filled: pigeonhole over the satisfying assignments
      rw [hLbool] at hb
      have hnlt : ¬ (backtrack rc.length rc cc (rc.length * rc.length)
          (create2DArray rc.length rc.length (-1)) 0 [] maxS).2.1.length < maxS :=
        of_decide_eq_false hb
      rw [hLeq, List.nil_append] at hnlt
      have hkeq : L.length = numSolutions rc cc := by omega
      rw [hL]
      refine mem_of_valid_of_card rc.length rc cc L hLnd ?_ ?_ hgf hgv
      · intro a ha
        obtain ⟨hf, hv, _⟩ := hLext a ha
        exact ⟨hf, hv⟩
      · rw [hkeq]
        rfl
    · rw [hL]
      rw [hLeq, List.nil_append] at hm
      exact hm

/-! ### Derived facts used by the claims -/

theorem isValidSolution_own (g : Grid) :
    isValidSolution g (calculateRows g) (calculateColumns g) = true := by
  rw [isValidSolution_iff]
  constructor
  · intro r hr
    unfold calculateRows
    rw [List.getD_eq_getElem (g.map fun row => calculateLine row) []
        (by simpa using hr),
      List.getElem_map, List.getD_eq_getElem g [] hr]
  · intro c hc
    unfold calculateColumns
    rw [List.getD_eq_getElem _ [] (by simpa using hc), List.getElem_map,
      List.getElem_range]

theorem generateAux_succ (size : Nat) (coins : Nat → Nat → Nat → Bool)
    (dateStr : String) (remaining attempt : Nat) :
    generateAux size coins dateStr (remaining + 1) attempt =
      if (solve (calculateRows (generateRandomGrid size (coins attempt)))
          (calculateColumns (generateRandomGrid size (coins attempt))) 2).unique then
        some { size := size
               solution := generateRandomGrid size (coins attempt)
               name := "Random " ++ toString size ++ "×" ++ toString size
               created := dateStr }
      else generateAux size coins dateStr remaining (attempt + 1) := rfl

theorem generateAux_spec (size : Nat) (coins : Nat → Nat → Nat → Bool)
    (dateStr : String) :
    ∀ remaining attempt,
      (∀ p, generateAux size coins dateStr remaining attempt = some p →
        (solve (calculateRows p.solution) (calculateColumns p.solution) 2).unique
          = true) ∧
      ((∀ a, a < remaining →
          (solve (calculateRows (generateRandomGrid size (coins (attempt + a))))
            (calculateColumns (generateRandomGrid size (coins (attempt + a))))
            2).unique = false) →
        generateAux size coins dateStr remaining attempt = none) := by
  intro remaining
  induction remaining with
  | zero =>
    intro attempt
    exact ⟨fun p h => by simp [generateAux] at h, fun _ => rfl⟩
  | succ remaining ih =>
    intro attempt
    constructor
    · intro p hp
      rw [generateAux_succ] at hp
      split at hp
      · rename_i huniq
        obtain rfl := Option.some.inj hp
        exact huniq
      · exact (ih (attempt + 1)).1 p hp
    · intro hall
      rw [generateAux_succ]
      have h0 := hall 0 (by omega)
      rw [Nat.add_zero] at h0
      rw [if_neg (by rw [h0]; exact Bool.false_ne_true)]
      apply (ih (attempt + 1)).2
      intro a ha
      have := hall (a + 1) (by omega)
      rw [show attempt + (a + 1) = attempt + 1 + a from by omega] at this
      exact this

theorem getD_replicate {α : Type} {n i : Nat} (h : i < n) (a d : α) :
    (List.replicate n a).getD i d = a := by
  rw [List.getD_eq_getElem _ d (by simpa using h), List.getElem_replicate]

theorem calculateRows_zero (n : Nat) :
    calculateRows (create2DArray n n 0) = List.replicate n [0] := by
  unfold calculateRows create2DArray
  rw [List.map_replicate, calculateLine_replicate_zero]

theorem getColumn_zero {n c : Nat} (hc : c < n) :
    getColumn (create2DArray n n 0) c = List.replicate n 0 := by
  unfold getColumn create2DArray
  rw [List.map_replicate, getD_replicate hc]

theorem calculateColumns_zero (n : Nat) :
    calculateColumns (create2DArray n n 0) = List.replicate n [0] := by
  unfold calculateColumns
  have hlen : (create2DArray n n 0).length = n := by simp [create2DArray]
  rw [hlen]
  apply List.ext_getElem (by simp)
  intro i h1 h2
  rw [List.getElem_map, List.getElem_range, List.getElem_replicate,
    getColumn_zero (by simpa using h1), calculateLine_replicate_zero]

theorem isValidSolution_zero (n : Nat) :
    isValidSolution (create2DArray n n 0) (List.replicate n [0])
      (List.replicate n [0]) = true := by
  rw [isValidSolution_iff]
  have hlen : (create2DArray n n 0).length = n := by simp [create2DArray]
  rw [hlen]
  constructor
  · intro r hr
    unfold create2DArray
    rw [getD_replicate hr, calculateLine_replicate_zero, getD_replicate hr]
  · intro c hc
    rw [getColumn_zero hc, calculateLine_replicate_zero, getD_replicate hc]

theorem gridOfFun_false (n : Nat) :
    gridOfFun n (fun _ _ => false) = create2DArray n n 0 := by
  unfold gridOfFun create2DArray
  simp only [Bool.false_eq_true, if_false, List.ofFn_const]

theorem numSolutions_zero (n : Nat) :
    numSolutions (List.replicate n [0]) (List.replicate n [0]) = 1 := by
  unfold numSolutions
  rw [Finset.card_eq_one]
  refine ⟨fun _ _ => false, ?_⟩
  apply Finset.ext
  intro f
  rw [Finset.mem_filter, Finset.mem_singleton]
  constructor
  · rintro ⟨_, hval⟩
    funext r c
    cases hfc : f r c with
    | false => rfl
    | true =>
      exfalso
      have hglen : (gridOfFun (List.replicate n ([0] : Clue)).length f).length =
          (List.replicate n ([0] : Clue)).length :=
        (squareGrid_gridOfFun _ f).1
      have hrow := (isValidSolution_iff.mp hval).1 r.val (by
        rw [hglen]
        exact r.isLt)
      have hcell : getCell (gridOfFun (List.replicate n ([0] : Clue)).length f)
          r.val c.val = 1 := by
        rw [getCell_gridOfFun f r.isLt c.isLt, Fin.eta, Fin.eta, hfc]
        rfl
      have hrlen : ((gridOfFun (List.replicate n ([0] : Clue)).length f).getD
          r.val []).length = (List.replicate n ([0] : Clue)).length :=
        getD_row_length (squareGrid_gridOfFun _ f) r.isLt
      have hmem : (1 : Int) ∈ (gridOfFun (List.replicate n ([0] : Clue)).length
          f).getD r.val [] := by
        rw [List.mem_iff_getElem]
        refine ⟨c.val, by rw [hrlen]; exact c.isLt, ?_⟩
        rw [← List.getD_eq_getElem _ (-1) (by rw [hrlen]; exact c.isLt)]
        exact hcell
      have hr0 : (List.replicate n ([0] : Clue)).getD r.val [] = [0] :=
        getD_replicate (by
          have h2 : (List.replicate n ([0] : Clue)).length = n :=
            List.length_replicate n [0]
          have h3 := r.isLt
          omega) _ _
      rw [hr0] at hrow
      exact calculateLine_of_one hmem hrow
  · rintro rfl
    refine ⟨Finset.mem_univ _, ?_⟩
    rw [gridOfFun_false, List.length_replicate]
    exact isValidSolution_zero n

theorem eq_singleton_of_length_one {α : Type} {l : List α} {a : α}
    (h : l.length = 1) (hm : a ∈ l) : l = [a] := by
  cases l with
  | nil => simp at hm
  | cons x t =>
    cases t with
    | nil =>
      rw [List.mem_singleton] at hm
      rw [hm]
    | cons y u => simp at h

/-! ### The claims -/

/-- C1: for every clue set and every `maxSolutions ≥ 1`, `solve` returns
at most `maxSolutions` solutions; with `maxSolutions ≥ 2` the `unique`
flag is true exactly when the true number of satisfying 0/1 grids is one;
and `unique` (resp. `solvable`) is true exactly when exactly one (resp. at
least one) solution was found within the bound. -/
theorem C1_solver_bound_and_uniqueness (rowClues colClues : List Clue)
    (maxSolutions : Nat) (hmax : 1 ≤ maxSolutions) :
    (solve rowClues colClues maxSolutions).solutions.length ≤ maxSolutions ∧
    (2 ≤ maxSolutions →
      ((solve rowClues colClues maxSolutions).unique = true ↔
        numSolutions rowClues colClues = 1)) ∧
    ((solve rowClues colClues maxSolutions).unique = true ↔
      (solve rowClues colClues maxSolutions).solutions.length = 1) ∧
    ((solve rowClues colClues maxSolutions).solvable = true ↔
      1 ≤ (solve rowClues colClues maxSolutions).solutions.length) := by
  obtain ⟨hlen, huniq, hsolv, _, _, _⟩ := solve_spec rowClues colClues maxSolutions
  refine ⟨by omega, ?_, ?_, ?_⟩
  · intro h2
    rw [huniq, decide_eq_true_iff, hlen]
    omega
  · rw [huniq, decide_eq_true_iff]
  · rw [hsolv, decide_eq_true_iff]
    omega

theorem C1_witness :
    1 ≤ 2 ∧
    ((solve [[1]] [[1]] 2).solutions.length ≤ 2 ∧
     (2 ≤ 2 → ((solve [[1]] [[1]] 2).unique = true ↔
       numSolutions [[1]] [[1]] = 1)) ∧
     ((solve [[1]] [[1]] 2).unique = true ↔
       (solve [[1]] [[1]] 2).solutions.length = 1) ∧
     ((solve [[1]] [[1]] 2).solvable = true ↔
       1 ≤ (solve [[1]] [[1]] 2).solutions.length)) :=
  ⟨by decide, C1_solver_bound_and_uniqueness [[1]] [[1]] 2 (by decide)⟩

/-- C2 as stated is false: with `maxSolutions = 1` the bound can cut the
search off at a different first solution, so the original grid need not
appear.  The anti-diagonal 2-by-2 grid yields the ambiguous clue set
`[1],[1]` / `[1],[1]`, and the solver finds the diagonal grid first. -/
theorem C2_counterexample :
    ([[0, 1], [1, 0]] : Grid) ∉
      (solve (calculateRows [[0, 1], [1, 0]])
        (calculateColumns [[0, 1], [1, 0]]) 1).solutions ∧ 1 ≤ 1 := by
  decide

/-- C2 amended: `solve` on the clues derived from a full 0/1 grid `g`
includes `g` among its solutions whenever `maxSolutions` is at least the
total number of grids satisfying that clue set (in particular the bound
can no longer cut `g` off). -/
theorem C2_soundness_amended (g : Grid) (n maxSolutions : Nat)
    (hg : FullGrid g n)
    (hbound : numSolutions (calculateRows g) (calculateColumns g) ≤ maxSolutions) :
    g ∈ (solve (calculateRows g) (calculateColumns g) maxSolutions).solutions := by
  have hn : (calculateRows g).length = n := by
    unfold calculateRows
    rw [List.length_map]
    exact hg.1.1
  obtain ⟨_, _, _, _, _, hcomplete⟩ :=
    solve_spec (calculateRows g) (calculateColumns g) maxSolutions
  exact hcomplete g (hn ▸ hg) (isValidSolution_own g) hbound

theorem C2_witness :
    ([[1]] : Grid) ∈
      (solve (calculateRows [[1]]) (calculateColumns [[1]]) 1).solutions :=
  C2_soundness_amended [[1]] 1 1
    ⟨⟨rfl, by
      intro row h
      rw [List.mem_singleton] at h
      subst h
      rfl⟩, by
      intro r c hr hc
      have hr0 : r = 0 := by omega
      have hc0 : c = 0 := by omega
      subst hr0
      subst hc0
      exact Or.inr rfl⟩
    (by rw [numSolutions_eq_countExt]; decide)

/-- C3: whenever the generator returns a puzzle, the clue set derived from
its solution solves uniquely at bound 2; and when none of the sampled
candidate grids yields a unique clue set, the generator returns `none`. -/
theorem C3_generator_postcondition (size maxAttempts : Nat)
    (coins : Nat → Nat → Nat → Bool) (dateStr : String) :
    (∀ p, generate size maxAttempts coins dateStr = some p →
      (solve (calculateRows p.solution) (calculateColumns p.solution) 2).unique
        = true) ∧
    ((∀ a, a < maxAttempts →
        (solve (calculateRows (generateRandomGrid size (coins a)))
          (calculateColumns (generateRandomGrid size (coins a))) 2).unique
          = false) →
      generate size maxAttempts coins dateStr = none) := by
  have h := generateAux_spec size coins dateStr maxAttempts 0
  unfold generate
  refine ⟨h.1, fun hall => h.2 ?_⟩
  intro a ha
  simpa using hall a ha

theorem C3_witness :
    generate 2 1 (fun _ r c => decide (r = c)) "2026-10-12" = none ∧
    (∀ p, generate 1 1 (fun _ _ _ => true) "2026-10-12" = some p →
      (solve (calculateRows p.solution) (calculateColumns p.solution) 2).unique
        = true) := by
  constructor
  · apply (C3_generator_postcondition 2 1 (fun _ r c => decide (r = c))
      "2026-10-12").2
    intro a ha
    have ha0 : a = 0 := by omega
    subst ha0
    decide
  · exact (C3_generator_postcondition 1 1 (fun _ _ _ => true) "2026-10-12").1

/-- C4: for every `N ≥ 1` the all-zeros grid has every row and column clue
equal to `[0]`, and `solve` on that clue set with bound 2 returns exactly
the all-zeros grid, reported unique. -/
theorem C4_empty_grid (n : Nat) (hn : 1 ≤ n) :
    calculateRows (create2DArray n n 0) = List.replicate n [0] ∧
    calculateColumns (create2DArray n n 0) = List.replicate n [0] ∧
    (solve (List.replicate n [0]) (List.replicate n [0]) 2).solutions =
      [create2DArray n n 0] ∧
    (solve (List.replicate n [0]) (List.replicate n [0]) 2).unique = true := by
  have hm : (List.replicate n ([0] : Clue)).length = n := List.length_replicate n [0]
  obtain ⟨hlen, huniq, _, _, _, hcomplete⟩ :=
    solve_spec (List.replicate n [0]) (List.replicate n [0]) 2
  have hk := numSolutions_zero n
  have hfull : FullGrid (create2DArray n n 0) (List.replicate n ([0] : Clue)).length := by
    rw [hm]
    constructor
    · constructor
      · simp [create2DArray]
      · intro row hrow
        unfold create2DArray at hrow
        rw [List.eq_of_mem_replicate hrow]
        simp
    · intro r c hr hc
      left
      unfold getCell create2DArray
      rw [getD_replicate hr, getD_replicate hc]
  have hmem : create2DArray n n 0 ∈
      (solve (List.replicate n [0]) (List.replicate n [0]) 2).solutions := by
    apply hcomplete _ hfull ?_ (by omega)
    have := isValidSolution_zero n
    exact this
  have hlen1 : (solve (List.replicate n [0]) (List.replicate n [0]) 2).solutions.length
      = 1 := by
    rw [hlen, hk]
    decide
  refine ⟨calculateRows_zero n, calculateColumns_zero n,
    eq_singleton_of_length_one hlen1 hmem, ?_⟩
  rw [huniq, hlen1]
  rfl

theorem C4_witness :
    1 ≤ 2 ∧
    (calculateRows (create2DArray 2 2 0) = List.replicate 2 [0] ∧
     calculateColumns (create2DArray 2 2 0) = List.replicate 2 [0] ∧
     (solve (List.replicate 2 [0]) (List.replicate 2 [0]) 2).solutions =
       [create2DArray 2 2 0] ∧
     (solve (List.replicate 2 [0]) (List.replicate 2 [0]) 2).unique = true) :=
  ⟨by decide, C4_empty_grid 2 (by decide)⟩

/-- C5: on a 0/1 line, `calculateLine` never returns the empty sequence;
it returns `[0]` exactly when the line has no filled cell, and otherwise a
sequence of positive run lengths whose sum plus the number of gaps fits in
the line. -/
theorem C5_clue_shape (line : List Int) (hbin : ∀ x ∈ line, x = 0 ∨ x = 1) :
    calculateLine line ≠ [] ∧
    ((1 : Int) ∉ line → calculateLine line = [0]) ∧
    ((1 : Int) ∈ line →
      (∀ x ∈ calculateLine line, 0 < x) ∧
      (calculateLine line).sum + ((calculateLine line).length - 1) ≤
        line.length) := by
  refine ⟨calculateLine_ne_nil line, fun h => calculateLine_of_no_one h,
    fun h1 => ?_⟩
  have hne := calculateLineAux_ne_nil_of_one line h1 0
  have hcl : calculateLine line = calculateLineAux line 0 := by
    rw [calculateLine_eq, if_pos]
    cases hc : calculateLineAux line 0 with
    | nil => exact absurd hc hne
    | cons a t => simp
  rw [hcl]
  exact ⟨calculateLineAux_pos line 0, by
    simpa using calculateLineAux_sum_bound line 0⟩

theorem C5_witness :
    (∀ x ∈ ([1, 0, 1] : List Int), x = 0 ∨ x = 1) ∧
    (calculateLine [1, 0, 1] ≠ [] ∧
     ((1 : Int) ∉ ([1, 0, 1] : List Int) → calculateLine [1, 0, 1] = [0]) ∧
     ((1 : Int) ∈ ([1, 0, 1] : List Int) →
       (∀ x ∈ calculateLine [1, 0, 1], 0 < x) ∧
       (calculateLine [1, 0, 1]).sum +
         ((calculateLine [1, 0, 1]).length - 1) ≤
           ([1, 0, 1] : List Int).length)) :=
  ⟨by decide, C5_clue_shape [1, 0, 1] (by decide)⟩

/-- C6 as stated is false: the undo step resets visited cells to Unknown
(-1) rather than to the value they held at entry, so a grid whose cell at
the current position held another value comes back changed. -/
theorem C6_counterexample :
    (backtrack 1 [[0]] [[0]] 1 [[5]] 0 [] 2).1 ≠ [[5]] := by
  decide

/-- C6 amended: whenever every cell at a row-major position at or above
`pos` is Unknown at entry (the invariant `backtrack` itself maintains,
which holds in particular for the all-Unknown grid `solve` passes at
position 0), the grid returned by `backtrack` is exactly the entry grid:
the undo discipline restores every cell on every return path. -/
theorem C6_restore_amended (size : Nat) (rowClues colClues : List Clue)
    (fuel pos : Nat) (grid : Grid) (solutions : List Grid) (maxSolutions : Nat)
    (hu : ∀ r c, r < size → c < size → pos ≤ r * size + c →
      getCell grid r c = -1) :
    (backtrack size rowClues colClues fuel grid pos solutions maxSolutions).1 =
      grid :=
  backtrack_restores size rowClues colClues fuel pos grid solutions
    maxSolutions hu

theorem C6_witness :
    (backtrack 1 [[1]] [[1]] 1 [[-1]] 0 [] 2).1 = [[-1]] :=
  C6_restore_amended 1 [[1]] [[1]] 1 0 [[-1]] [] 2 (by
    intro r c hr hc _
    have hr0 : r = 0 := by omega
    have hc0 : c = 0 := by omega
    subst hr0
    subst hc0
    rfl)

/-- C7 as stated is false: `loadPuzzle` checks only the row count and the
length of the first row, so a ragged (non-square) solution whose first row
has the right length is accepted without any error. -/
theorem C7_counterexample :
    loadPuzzle ⟨some 10, some ([List.replicate 10 0] ++
        List.replicate 9 (List.replicate 9 (0 : Int)))⟩ = Except.ok () ∧
    ¬ (∀ row ∈ [List.replicate 10 (0 : Int)] ++
        List.replicate 9 (List.replicate 9 (0 : Int)), row.length = 10) :=
  ⟨rfl, by decide⟩

/-- C7 amended: loading a puzzle record succeeds exactly when the record
has a present size equal to 10 or 15 and a present solution whose row
count and whose FIRST row length both equal that size; any other record is
rejected with a descriptive error.  Rows beyond the first are not checked,
so a ragged solution with a conforming first row is not rejected. -/
theorem C7_load_validation (p : PuzzleRecord) :
    loadPuzzle p = Except.ok () ↔
      ∃ sz sol, p.size = some sz ∧ p.solution = some sol ∧
        (sz = 10 ∨ sz = 15) ∧ sol.length = sz ∧
        (sol.getD 0 []).length = sz := by
  obtain ⟨osz, osol⟩ := p
  cases osz with
  | none =>
    simp [loadPuzzle]
  | some sz =>
    cases osol with
    | none =>
      simp [loadPuzzle]
    | some sol =>
      constructor
      · intro hok
        unfold loadPuzzle at hok
        simp only [Option.getD_some] at hok
        split at hok
        · exact absurd hok (by simp)
        · split at hok
          · exact absurd hok (by simp)
          · split at hok
            · exact absurd hok (by simp)
            · rename_i hc1 hc2 hc3
              refine ⟨sz, sol, rfl, rfl, by omega, ?_, ?_⟩
              · omega
              · omega
      · rintro ⟨sz', sol', hsz, hsol, hval, hlen, hrow⟩
        obtain rfl := Option.some.inj hsz
        obtain rfl := Option.some.inj hsol
        unfold loadPuzzle
        simp only [Option.getD_some]
        rw [if_neg (by
          rintro (h | h)
          · omega
          · exact Option.some_ne_none _ h)]
        rw [if_neg (by omega)]
        rw [if_neg (by
          rintro (h | h)
          · omega
          · omega)]

/-- C8: the three literal clue computations of the spec. -/
theorem C8_literal_clues :
    calculateLine [1, 1, 0, 1, 0, 0, 1, 1, 1, 0] = [2, 1, 3] ∧
    calculateLine [0, 0, 0, 0] = [0] ∧
    calculateLine [1, 1, 1, 1] = [4] := by
  decide

/-- C9: with `maxSolutions = 1` the search stops at the first solution, so
the `unique` flag coincides with the `solvable` flag: it is reported true
whenever any solution exists, even for ambiguous clue sets. -/
theorem C9_bound_one_degenerate (rowClues colClues : List Clue) :
    (solve rowClues colClues 1).unique = (solve rowClues colClues 1).solvable := by
  obtain ⟨hlen, huniq, hsolv, _, _, _⟩ := solve_spec rowClues colClues 1
  rw [huniq, hsolv]
  have hle : (solve rowClues colClues 1).solutions.length ≤ 1 := by
    rw [hlen]
    omega
  rcases Nat.le_one_iff_eq_zero_or_eq_one.mp hle with h | h <;> rw [h] <;> rfl

/-- C10: the solutions returned by `solve` are pairwise distinct, and
every cell of every returned solution is 0 or 1 (the Unknown value -1
never appears). -/
theorem C10_solutions_distinct_binary (rowClues colClues : List Clue)
    (maxSolutions : Nat) :
    List.Pairwise (fun a b => a ≠ b)
      (solve rowClues colClues maxSolutions).solutions ∧
    ∀ g ∈ (solve rowClues colClues maxSolutions).solutions,
      ∀ row ∈ g, ∀ v ∈ row, v = 0 ∨ v = 1 := by
  obtain ⟨_, _, _, hnd, hvalid, _⟩ := solve_spec rowClues colClues maxSolutions
  refine ⟨hnd, ?_⟩
  intro g hg row hrow v hv
  obtain ⟨hf, _⟩ := hvalid g hg
  obtain ⟨i, hi, hieq⟩ := List.mem_iff_getElem.mp hrow
  obtain ⟨j, hj, hjeq⟩ := List.mem_iff_getElem.mp hv
  have hin : i < rowClues.length := hf.1.1 ▸ hi
  have hrowlen : row.length = rowClues.length := hf.1.2 row hrow
  have hjn : j < rowClues.length := hrowlen ▸ hj
  have hcell : getCell g i j = v := by
    rw [getCell_eq_getD, List.getD_eq_getElem g [] hi, hieq,
      List.getD_eq_getElem row (-1) hj, hjeq]
  rw [← hcell]
  exact hf.2 i j hin hjn

end Nonogram
